import Mathlib

/-!
Verification development for the picfixer raster pipeline.

The JavaScript sources are embedded shallowly:

* `Uint8ClampedArray` pixel stores are modeled by `EffectsEngine.u8`
  (clamp to [0,255], then round half to even, as the ECMAScript
  `ToUint8Clamp` conversion does).
* IEEE floating point arithmetic on pixel values is modeled by exact
  rational arithmetic (`ℚ`); decimal literals such as `0.4375` or `0.59`
  become the corresponding rationals.  `Math.round` is `⌊x + 1/2⌋`.
* In-place mutation of `ImageData` becomes explicit state passing; a
  raster is a width, a height and a row-major list of RGB triples (the
  alpha channel is never read nor written by the color math).
* Code paths that throw in JavaScript (indexing an empty palette)
  return `Option.none`.
-/

/-- An RGB triple as stored in an `ImageData` buffer (one byte per channel,
but modeled on `ℤ` so that clamping behaviour is explicit). -/
abbrev Pixel : Type := ℤ × ℤ × ℤ

/-- An RGB triple of the `Float32Array` error buffer, modeled on `ℚ`. -/
abbrev FPixel : Type := ℚ × ℚ × ℚ

/-- The raster image: `width`, `height` and the row-major pixel list of an
`ImageData` (index `y * width + x`). -/
structure Raster where
  width : ℕ
  height : ℕ
  data : List Pixel
deriving DecidableEq, Repr

/-- Cast a stored pixel into the rational error buffer. -/
def pixToQ (p : Pixel) : FPixel := ((p.1 : ℚ), (p.2.1 : ℚ), (p.2.2 : ℚ))

namespace ColorUtils

/-- `ColorUtils.getLuminance`: `(r*77 + g*150 + b*29) >> 8` (the JS `>>`
floors toward `-∞`, hence `Int.fdiv`). -/
def getLuminance (r g b : ℤ) : ℤ := Int.fdiv (r * 77 + g * 150 + b * 29) 256

/-- `ColorUtils.colorDistanceSq`: perceptually weighted squared distance,
weights 0.3 / 0.59 / 0.11. -/
def colorDistanceSq (r1 g1 b1 r2 g2 b2 : ℚ) : ℚ :=
  let dr := r1 - r2
  let dg := g1 - g2
  let db := b1 - b2
  dr * dr * (3 / 10) + dg * dg * (59 / 100) + db * db * (11 / 100)

/-- Distance of a (possibly error-adjusted) color to a palette entry. -/
def distTo (r g b : ℚ) (c : Pixel) : ℚ :=
  colorDistanceSq r g b (c.1 : ℚ) (c.2.1 : ℚ) (c.2.2 : ℚ)

/-- The scan loop of `ColorUtils.findClosestColor`: carry the best entry so
far and its distance, replace only on a strictly smaller distance (first
palette entry wins ties). -/
def fccLoop (r g b : ℚ) (best : Pixel) (bestD : ℚ) : List Pixel → Pixel
  | [] => best
  | c :: cs =>
    let d := distTo r g b c
    if d < bestD then fccLoop r g b c d cs else fccLoop r g b best bestD cs

/-- `ColorUtils.findClosestColor` on a nonempty palette `p :: ps`.  The JS
loop starts with `closest = palette[0]`, `minDist = Infinity`; its first
iteration always replaces the pair by `(palette[0], dist palette[0])`, so the
loop is equivalent to starting from the head and scanning the tail. -/
def findClosestNE (r g b : ℚ) (p : Pixel) (ps : List Pixel) : Pixel :=
  fccLoop r g b p (distTo r g b p) ps

/-- `ColorUtils.findClosestColor`.  On an empty palette the JS code returns
`undefined` and every caller immediately destructures it, throwing; that
failure is modeled as `none`. -/
def findClosestColor (r g b : ℚ) : List Pixel → Option Pixel
  | [] => Option.none
  | p :: ps => some (findClosestNE r g b p ps)

/-- Comparator order of `ColorUtils.sortPaletteByLuminance`. -/
def lumLE (a b : Pixel) : Prop :=
  getLuminance a.1 a.2.1 a.2.2 ≤ getLuminance b.1 b.2.1 b.2.2

instance : DecidableRel lumLE := fun a b =>
  inferInstanceAs (Decidable (getLuminance a.1 a.2.1 a.2.2 ≤ getLuminance b.1 b.2.1 b.2.2))

/-- `ColorUtils.sortPaletteByLuminance`: stable ascending sort by perceptual
luminance (JS `Array.prototype.sort` with comparator `lum a - lum b`). -/
def sortPaletteByLuminance (pal : List Pixel) : List Pixel :=
  List.insertionSort lumLE pal

/-- JS `Math.round`: round half toward `+∞`. -/
def jsRound (q : ℚ) : ℤ := ⌊q + 1 / 2⌋

/-- `ColorUtils.getPaletteIndexByLuminance`:
`max 0 (min (n-1) (round (lum/255 * (n-1))))`. -/
def getPaletteIndexByLuminance (lum : ℚ) (n : ℕ) : ℤ :=
  max 0 (min ((n : ℤ) - 1) (jsRound (lum / 255 * ((n : ℤ) - 1))))

/-- `ColorUtils.clamp`: clamp a (possibly fractional) value to `[0, 255]`. -/
def clampQ (v : ℚ) : ℚ := if v < 0 then 0 else if 255 < v then 255 else v

end ColorUtils

namespace EffectsEngine

/-- Round half to even on `ℚ` (the rounding used by `Uint8ClampedArray`
stores). -/
def rhe (q : ℚ) : ℤ :=
  let f := ⌊q⌋
  let r := q - (f : ℚ)
  if r < 1 / 2 then f
  else if 1 / 2 < r then f + 1
  else if f % 2 = 0 then f else f + 1

/-- Storing a number into a `Uint8ClampedArray` slot (ECMAScript
`ToUint8Clamp`): clamp to `[0,255]`, then round half to even. -/
def u8 (q : ℚ) : ℤ := rhe (ColorUtils.clampQ q)

end EffectsEngine

namespace DitheringEngine

/-- The row-major scan order of the nested `for (y) for (x)` loops:
`(y, x)` pairs, `y` ascending outer, `x` ascending inner. -/
def pixelSeq (W H : ℕ) : List (ℕ × ℕ) :=
  (List.range H).flatMap fun y => (List.range W).map fun x => (y, x)

/-- Add an error contribution to one slot of the error buffer. -/
def addAt (buf : ℕ → FPixel) (i : ℕ) (e : FPixel) : ℕ → FPixel :=
  Function.update buf i (buf i + e)

/-- State threaded through an error-diffusion pass: the `Float32Array`
error buffer and the output `data` array, both as index maps. -/
abbrev DState : Type := (ℕ → FPixel) × (ℕ → Pixel)

/-- Scale the three channels of an error triple by a weight. -/
def escale (w : ℚ) (e : FPixel) : FPixel := (w * e.1, w * e.2.1, w * e.2.2)

/-- The pixel loop of `DitheringEngine.quantize`: replace every pixel by its
nearest palette color, failing (like the JS `undefined` destructuring) as soon
as `findClosestColor` fails. -/
def quantizeData (pal : List Pixel) : List Pixel → Option (List Pixel)
  | [] => some []
  | p :: ps =>
    match ColorUtils.findClosestColor (p.1 : ℚ) (p.2.1 : ℚ) (p.2.2 : ℚ) pal with
    | Option.none => Option.none
    | some q =>
      match quantizeData pal ps with
      | Option.none => Option.none
      | some qs => some (q :: qs)

/-- `DitheringEngine.quantize`: every pixel independently replaced by its
nearest palette color (fails on the first pixel if the palette is empty). -/
def quantize (img : Raster) (pal : List Pixel) : Option Raster :=
  (quantizeData pal img.data).map fun d => ⟨img.width, img.height, d⟩

/-- The error distribution of `DitheringEngine.floydSteinberg`, transcribed
from the four guarded writes (weights `0.4375 = 7/16`, `0.1875 = 3/16`,
`0.3125 = 5/16`, `0.0625 = 1/16`). -/
def fsDistribute (W H x y : ℕ) (err : FPixel) (buf : ℕ → FPixel) : ℕ → FPixel :=
  let b1 := if x + 1 < W then addAt buf (y * W + x + 1) (escale (7/16) err) else buf
  if y + 1 < H then
    let b2 := if 0 < x then addAt b1 ((y + 1) * W + x - 1) (escale (3/16) err) else b1
    let b3 := addAt b2 ((y + 1) * W + x) (escale (5/16) err)
    if x + 1 < W then addAt b3 ((y + 1) * W + x + 1) (escale (1/16) err) else b3
  else b1

/-- One pixel of the Floyd–Steinberg scan: read the error-adjusted color from
the buffer, write the nearest palette color to the output, distribute the
signed error `buffered - chosen`. -/
def fsStep (W H : ℕ) (p : Pixel) (ps : List Pixel) (st : DState) (yx : ℕ × ℕ) : DState :=
  let idx := yx.1 * W + yx.2
  let c := st.1 idx
  let n := ColorUtils.findClosestNE c.1 c.2.1 c.2.2 p ps
  let err : FPixel := (c.1 - (n.1 : ℚ), c.2.1 - (n.2.1 : ℚ), c.2.2 - (n.2.2 : ℚ))
  (fsDistribute W H yx.2 yx.1 err st.1, Function.update st.2 idx n)

/-- Initial dithering state: the float buffer is seeded from the input data,
the output array starts as the input data. -/
def initState (img : Raster) : DState :=
  (fun i => pixToQ (img.data.getD i (0, 0, 0)), fun i => img.data.getD i (0, 0, 0))

/-- Read the output array back into a raster of the original dimensions
(the JS code mutates `imageData` in place, so its buffer length and
dimensions are unchanged). -/
def materialize (img : Raster) (st : DState) : Raster :=
  ⟨img.width, img.height, (List.range img.data.length).map st.2⟩

/-- `DitheringEngine.floydSteinberg`.  An empty palette makes the first
processed pixel throw in JS; that failure is modeled as `none`. -/
def floydSteinberg (img : Raster) (pal : List Pixel) : Option Raster :=
  match pal with
  | [] => Option.none
  | p :: ps =>
    some (materialize img ((pixelSeq img.width img.height).foldl
      (fsStep img.width img.height p ps) (initState img)))

/-- The neighbor offsets `[dy, dx]` of `DitheringEngine.atkinson`, in source
order: right, far right, next row (left, center, right), two rows down. -/
def atkNeighbors : List (ℤ × ℤ) := [(0, 1), (0, 2), (1, -1), (1, 0), (1, 1), (2, 0)]

/-- The error distribution of `DitheringEngine.atkinson`: each in-bounds
neighbor receives the (already divided by 8) error unchanged. -/
def atkDistribute (W H x y : ℕ) (err : FPixel) (buf : ℕ → FPixel) : ℕ → FPixel :=
  atkNeighbors.foldl (fun b d =>
    let ny : ℤ := (y : ℤ) + d.1
    let nx : ℤ := (x : ℤ) + d.2
    if 0 ≤ ny ∧ ny < (H : ℤ) ∧ 0 ≤ nx ∧ nx < (W : ℤ) then
      addAt b (ny * (W : ℤ) + nx).toNat err
    else b) buf

/-- One pixel of the Atkinson scan: nearest color from the buffered value,
error `(buffered - chosen) * 0.125` distributed to the six neighbors. -/
def atkStep (W H : ℕ) (p : Pixel) (ps : List Pixel) (st : DState) (yx : ℕ × ℕ) : DState :=
  let idx := yx.1 * W + yx.2
  let c := st.1 idx
  let n := ColorUtils.findClosestNE c.1 c.2.1 c.2.2 p ps
  let err : FPixel := ((c.1 - (n.1 : ℚ)) * (1/8), (c.2.1 - (n.2.1 : ℚ)) * (1/8),
    (c.2.2 - (n.2.2 : ℚ)) * (1/8))
  (atkDistribute W H yx.2 yx.1 err st.1, Function.update st.2 idx n)

/-- `DitheringEngine.atkinson`. -/
def atkinson (img : Raster) (pal : List Pixel) : Option Raster :=
  match pal with
  | [] => Option.none
  | p :: ps =>
    some (materialize img ((pixelSeq img.width img.height).foldl
      (atkStep img.width img.height p ps) (initState img)))

/-- The 2×2 Bayer matrix of `DitheringEngine.orderedDither`. -/
def bayer2 : List (List ℚ) := [[0, 0.50], [0.75, 0.25]]

/-- The 4×4 Bayer matrix. -/
def bayer4 : List (List ℚ) :=
  [[0, 0.5000, 0.1250, 0.6250],
   [0.7500, 0.2500, 0.8750, 0.3750],
   [0.1875, 0.6875, 0.0625, 0.5625],
   [0.9375, 0.4375, 0.8125, 0.3125]]

/-- The 8×8 Bayer matrix. -/
def bayer8 : List (List ℚ) :=
  [[0.000, 0.500, 0.125, 0.625, 0.031, 0.531, 0.156, 0.656],
   [0.750, 0.250, 0.875, 0.375, 0.781, 0.281, 0.906, 0.406],
   [0.188, 0.688, 0.063, 0.563, 0.219, 0.719, 0.094, 0.594],
   [0.938, 0.438, 0.813, 0.313, 0.969, 0.469, 0.844, 0.344],
   [0.047, 0.547, 0.172, 0.672, 0.016, 0.516, 0.141, 0.641],
   [0.797, 0.297, 0.922, 0.422, 0.766, 0.266, 0.891, 0.391],
   [0.234, 0.734, 0.109, 0.609, 0.203, 0.703, 0.078, 0.578],
   [0.984, 0.484, 0.859, 0.359, 0.953, 0.453, 0.828, 0.328]]

/-- `bayerMatrices[matrixSize] || bayerMatrices[4]`. -/
def bayerFor (m : ℕ) : List (List ℚ) :=
  if m = 2 then bayer2 else if m = 4 then bayer4 else if m = 8 then bayer8 else bayer4

/-- One pixel of `DitheringEngine.orderedDither`: perturb the luminance by the
tiled Bayer threshold and map it through the luminance-sorted palette.
The threshold lookup `bayer[y % size][x % size]` is in bounds for the
documented matrix sizes 2, 4 and 8. -/
def orderedPixel (msize : ℕ) (sorted : List Pixel) (y x : ℕ) (p : Pixel) : Pixel :=
  let threshold := ((bayerFor msize).getD (y % msize) []).getD (x % msize) 0
  let lum : ℚ := (ColorUtils.getLuminance p.1 p.2.1 p.2.2 : ℚ) / 255
  let adjustedLum := lum + (threshold - 0.5) * 0.5
  let colorIdx := ColorUtils.getPaletteIndexByLuminance (adjustedLum * 255) sorted.length
  sorted.getD colorIdx.toNat (0, 0, 0)

/-- `DitheringEngine.orderedDither`.  With an empty palette the lookup
`sortedPalette[0]` throws in JS; modeled as `none`. -/
def orderedDither (img : Raster) (pal : List Pixel) (msize : ℕ) : Option Raster :=
  if pal = [] then Option.none
  else
    let sorted := ColorUtils.sortPaletteByLuminance pal
    let W := img.width
    some ⟨W, img.height, (List.range img.data.length).map fun i =>
      if i < W * img.height then
        orderedPixel msize sorted (i / W) (i % W) (img.data.getD i (0, 0, 0))
      else img.data.getD i (0, 0, 0)⟩

end DitheringEngine

/-- Map with the element's pixel index (the JS loops index `data` by
`i += 4`, one step per pixel). -/
def mapWithIndex (f : ℕ → Pixel → Pixel) : ℕ → List Pixel → List Pixel
  | _, [] => []
  | i, p :: ps => f i p :: mapWithIndex f (i + 1) ps

/-- The `mode` argument of `EffectsEngine.posterize`. -/
inductive PosterizeMode where
  | luminance
  | perChannel
  | artistic
deriving DecidableEq, Repr

/-- The blend-mode names understood by `EffectsEngine.blendPixel`; `unknown`
stands for any other string, which falls into the `default` (normal) case. -/
inductive BMode where
  | normal
  | multiply
  | screen
  | overlay
  | softLight
  | hardLight
  | colorDodge
  | colorBurn
  | difference
  | exclusion
  | lighten
  | darken
  | unknown
deriving DecidableEq, Repr

namespace EffectsEngine

/-- The `luminance` branch of `EffectsEngine.posterize`: quantize the
luminance to the step grid and rescale all channels by
`quantizedLum / originalLum` (scale 1 when the luminance is not positive). -/
def posterizeLumPass (step : ℚ) (img : Raster) : Raster :=
  ⟨img.width, img.height, img.data.map fun p =>
    let lum := ColorUtils.getLuminance p.1 p.2.1 p.2.2
    let quantLum : ℚ := (ColorUtils.jsRound ((lum : ℚ) / step) : ℚ) * step
    let scale : ℚ := if 0 < lum then quantLum / (lum : ℚ) else 1
    (u8 ((p.1 : ℚ) * scale), u8 ((p.2.1 : ℚ) * scale), u8 ((p.2.2 : ℚ) * scale))⟩

/-- The `per-channel` branch of `EffectsEngine.posterize`: quantize each
channel independently to the step grid. -/
def posterizePCPass (step : ℚ) (img : Raster) : Raster :=
  ⟨img.width, img.height, img.data.map fun p =>
    (u8 ((ColorUtils.jsRound ((p.1 : ℚ) / step) : ℚ) * step),
     u8 ((ColorUtils.jsRound ((p.2.1 : ℚ) / step) : ℚ) * step),
     u8 ((ColorUtils.jsRound ((p.2.2 : ℚ) / step) : ℚ) * step))⟩

/-- Channel sum used by the `artistic` posterize branch. -/
def sumRGB (data : List Pixel) : ℤ := (data.map fun p => p.1 + p.2.1 + p.2.2).sum

/-- The `artistic` branch of `EffectsEngine.posterize`: 1.3× contrast boost
around the mean brightness `sum / (data.length * 0.75)` (where `data.length`
counts RGBA bytes, i.e. `4 ×` the pixel count), then the step grid, the green
channel additionally scaled by 1.05. -/
def posterizeArtPass (step : ℚ) (img : Raster) : Raster :=
  let mean : ℚ := (sumRGB img.data : ℚ) / ((4 * img.data.length : ℚ) * 0.75)
  ⟨img.width, img.height, img.data.map fun p =>
    let r : ℚ := ((p.1 : ℚ) - mean) * 1.3 + mean
    let g : ℚ := ((p.2.1 : ℚ) - mean) * 1.3 + mean
    let b : ℚ := ((p.2.2 : ℚ) - mean) * 1.3 + mean
    (u8 ((ColorUtils.jsRound (r / step) : ℚ) * step),
     u8 ((ColorUtils.jsRound (g / step) : ℚ) * step * 1.05),
     u8 ((ColorUtils.jsRound (b / step) : ℚ) * step))⟩

/-- The final palette pass of `EffectsEngine.posterize`: remap every pixel by
its luminance through the luminance-sorted palette. -/
def posterizeRemapPass (pal : List Pixel) (img : Raster) : Raster :=
  let sorted := ColorUtils.sortPaletteByLuminance pal
  ⟨img.width, img.height, img.data.map fun p =>
    let lum := ColorUtils.getLuminance p.1 p.2.1 p.2.2
    let idx := ColorUtils.getPaletteIndexByLuminance (lum : ℚ) sorted.length
    sorted.getD idx.toNat (0, 0, 0)⟩

/-- `EffectsEngine.posterize`.  Note the first branch guard is
`mode === 'luminance' && !palette`: with a non-null palette the luminance
branch is skipped.  The palette remap runs whenever a non-null, non-empty
palette is supplied. -/
def posterize (img : Raster) (levels : ℤ) (mode : PosterizeMode)
    (palette : Option (List Pixel)) : Raster :=
  let lv := max 2 (min 16 levels)
  let step : ℚ := 255 / ((lv : ℚ) - 1)
  let img1 :=
    if mode = PosterizeMode.luminance ∧ palette = Option.none then posterizeLumPass step img
    else if mode = PosterizeMode.perChannel then posterizePCPass step img
    else if mode = PosterizeMode.artistic then posterizeArtPass step img
    else img
  match palette with
  | Option.none => img1
  | some pal => if 0 < pal.length then posterizeRemapPass pal img1 else img1

/-- `EffectsEngine.addNoise`: one random draw per pixel
(`(Math.random() - 0.5) * amount * 2`), added identically to the three
channels, each store clamped.  The ambient `Math.random` stream is made
explicit as `rand : ℕ → ℚ` indexed by pixel number. -/
def addNoise (img : Raster) (amount : ℚ) (rand : ℕ → ℚ) : Raster :=
  ⟨img.width, img.height, mapWithIndex (fun i p =>
    let noise := (rand i - 0.5) * amount * 2
    (u8 ((p.1 : ℚ) + noise), u8 ((p.2.1 : ℚ) + noise), u8 ((p.2.2 : ℚ) + noise))) 0 img.data⟩

/-- `EffectsEngine.blendWithOriginal`: per-channel linear blend
`processed * (1 - blend) + original * blend`, written back into the
processed raster's clamped byte store. -/
def blendWithOriginal (processed original : Raster) (blend : ℚ) : Raster :=
  let invBlend := 1 - blend
  ⟨processed.width, processed.height, mapWithIndex (fun i p =>
    let o := original.data.getD i (0, 0, 0)
    (u8 ((p.1 : ℚ) * invBlend + (o.1 : ℚ) * blend),
     u8 ((p.2.1 : ℚ) * invBlend + (o.2.1 : ℚ) * blend),
     u8 ((p.2.2 : ℚ) * invBlend + (o.2.2 : ℚ) * blend))) 0 processed.data⟩

end EffectsEngine

namespace EffectsEngine

/-- JS `Math.round` on the real line: round half toward `+∞`. -/
noncomputable def jsRoundR (x : ℝ) : ℤ := ⌊x + 1 / 2⌋

open Classical in
/-- The normalized `[0,1]`-space result of `EffectsEngine.blendPixel`,
before rescaling: `b = base/255`, `l = blend/255`, and the twelve formulas of
the `switch` (any unrecognized mode falls to the `default` case, `normal`).
Real-valued because the `soft-light` upper branch takes a square root. -/
noncomputable def blendPixelNorm (base blend : ℕ) (mode : BMode) : ℝ :=
  let b : ℝ := (base : ℝ) / 255
  let l : ℝ := (blend : ℝ) / 255
  match mode with
  | BMode.multiply => b * l
  | BMode.screen => 1 - (1 - b) * (1 - l)
  | BMode.overlay => if b < 1 / 2 then 2 * b * l else 1 - 2 * (1 - b) * (1 - l)
  | BMode.softLight =>
      if l < 1 / 2 then b - (1 - 2 * l) * b * (1 - b)
      else b + (2 * l - 1) * (Real.sqrt b - b)
  | BMode.hardLight => if l < 1 / 2 then 2 * b * l else 1 - 2 * (1 - b) * (1 - l)
  | BMode.colorDodge => if l = 1 then 1 else min 1 (b / (1 - l))
  | BMode.colorBurn => if l = 0 then 0 else max 0 (1 - (1 - b) / l)
  | BMode.difference => |b - l|
  | BMode.exclusion => b + l - 2 * b * l
  | BMode.lighten => max b l
  | BMode.darken => min b l
  | _ => l

/-- `EffectsEngine.blendPixel`: the normalized result rescaled to a byte with
`Math.round(result * 255)`. -/
noncomputable def blendPixel (base blend : ℕ) (mode : BMode) : ℤ :=
  jsRoundR (blendPixelNorm base blend mode * 255)

end EffectsEngine

/-- The `ditherType` setting of `ImageProcessor.process`; the source's
`'none'` string is the `none` constructor.  Unrecognized strings hit the
`default` switch case, which behaves exactly like `floyd-steinberg`. -/
inductive DitherType where
  | floydSteinberg
  | ordered
  | atkinson
  | none
deriving DecidableEq, Repr

namespace ImageProcessor

/-- Step 2's `switch (ditherType)` (ImageProcessor.process):
for `'none'`, the raster is still quantized to the palette unless
posterization with the palette already ran. -/
def ditherRun (dt : DitherType) (img : Raster) (pal : List Pixel) (msize : ℕ)
    (postOn useP : Bool) : Option Raster :=
  match dt with
  | DitherType.floydSteinberg => DitheringEngine.floydSteinberg img pal
  | DitherType.ordered => DitheringEngine.orderedDither img pal msize
  | DitherType.atkinson => DitheringEngine.atkinson img pal
  | DitherType.none =>
      if !postOn || !useP then DitheringEngine.quantize img pal else some img

/-- Steps 1–2 of `ImageProcessor.process` on the working raster: save
`cleanOriginal` (a copy made before posterization), posterize if enabled,
dither if `ditherStrength > 0`, and blend the dithered raster against
`cleanOriginal` with weight `(100 - strength)/100` when `strength < 100`
and the dither kind is not `'none'`. -/
def processCore (img : Raster) (pal : List Pixel) (postOn : Bool) (lv : ℤ)
    (pm : PosterizeMode) (useP : Bool) (dt : DitherType) (strength : ℤ)
    (msize : ℕ) : Option Raster :=
  let cleanOriginal := img
  let img1 :=
    if postOn then
      EffectsEngine.posterize img lv pm (if useP then some pal else Option.none)
    else img
  if 0 < strength then
    (ditherRun dt img1 pal msize postOn useP).map fun d =>
      if strength < 100 ∧ dt ≠ DitherType.none then
        EffectsEngine.blendWithOriginal d cleanOriginal ((100 - (strength : ℚ)) / 100)
      else d
  else some img1

end ImageProcessor

namespace DitheringEngine

/-- The Floyd–Steinberg weight table exactly as the specification words it:
`(dx, dy, weight)` = right 7/16, bottom-left 3/16, bottom 5/16,
bottom-right 1/16. -/
def fsWeights : List (ℤ × ℤ × ℚ) :=
  [(1, 0, 7/16), (-1, 1, 3/16), (0, 1, 5/16), (1, 1, 1/16)]

/-- Specification-side Floyd–Steinberg error distribution: each neighbor of
the weight table receives `err * weight` if it lies inside the raster, and
its share is simply dropped otherwise. -/
def fsDistributeSpec (W H x y : ℕ) (err : FPixel) (buf : ℕ → FPixel) : ℕ → FPixel :=
  fsWeights.foldl (fun b t =>
    let nx : ℤ := (x : ℤ) + t.1
    let ny : ℤ := (y : ℤ) + t.2.1
    if 0 ≤ nx ∧ nx < (W : ℤ) ∧ 0 ≤ ny ∧ ny < (H : ℤ) then
      addAt b (ny * (W : ℤ) + nx).toNat (escale t.2.2 err)
    else b) buf

/-- Specification-side Floyd–Steinberg pixel step: nearest color of the
buffered value, signed error `buffered - chosen`, distributed by the weight
table. -/
def fsStepSpec (W H : ℕ) (p : Pixel) (ps : List Pixel) (st : DState) (yx : ℕ × ℕ) : DState :=
  let idx := yx.1 * W + yx.2
  let c := st.1 idx
  let n := ColorUtils.findClosestNE c.1 c.2.1 c.2.2 p ps
  let err : FPixel := (c.1 - (n.1 : ℚ), c.2.1 - (n.2.1 : ℚ), c.2.2 - (n.2.2 : ℚ))
  (fsDistributeSpec W H yx.2 yx.1 err st.1, Function.update st.2 idx n)

/-- Specification-side Floyd–Steinberg: row-major scan with the
weight-table error distribution. -/
def floydSteinbergSpec (img : Raster) (pal : List Pixel) : Option Raster :=
  match pal with
  | [] => Option.none
  | p :: ps =>
    some (materialize img ((pixelSeq img.width img.height).foldl
      (fsStepSpec img.width img.height p ps) (initState img)))

/-- The Atkinson neighbor offsets `(dx, dy)` exactly as the claim lists them:
`(x+1,y), (x+2,y), (x-1,y+1), (x,y+1), (x+1,y+1), (x,y+2)`. -/
def atkOffsets : List (ℤ × ℤ) := [(1, 0), (2, 0), (-1, 1), (0, 1), (1, 1), (0, 2)]

/-- Specification-side Atkinson error distribution: every in-bounds neighbor
of the offset table receives the full (already divided by 8) error;
out-of-bounds neighbors are skipped. -/
def atkDistributeSpec (W H x y : ℕ) (err : FPixel) (buf : ℕ → FPixel) : ℕ → FPixel :=
  atkOffsets.foldl (fun b d =>
    let nx : ℤ := (x : ℤ) + d.1
    let ny : ℤ := (y : ℤ) + d.2
    if 0 ≤ nx ∧ nx < (W : ℤ) ∧ 0 ≤ ny ∧ ny < (H : ℤ) then
      addAt b (ny * (W : ℤ) + nx).toNat err
    else b) buf

/-- Amended Atkinson pixel step: the propagated error is
`(buffered - chosen) * 1/8`, the buffered value being the input plus all
previously accumulated error. -/
def atkStepSpec (W H : ℕ) (p : Pixel) (ps : List Pixel) (st : DState) (yx : ℕ × ℕ) : DState :=
  let idx := yx.1 * W + yx.2
  let c := st.1 idx
  let n := ColorUtils.findClosestNE c.1 c.2.1 c.2.2 p ps
  let err : FPixel := ((c.1 - (n.1 : ℚ)) * (1/8), (c.2.1 - (n.2.1 : ℚ)) * (1/8),
    (c.2.2 - (n.2.2 : ℚ)) * (1/8))
  (atkDistributeSpec W H yx.2 yx.1 err st.1, Function.update st.2 idx n)

/-- Amended specification-side Atkinson. -/
def atkinsonSpec (img : Raster) (pal : List Pixel) : Option Raster :=
  match pal with
  | [] => Option.none
  | p :: ps =>
    some (materialize img ((pixelSeq img.width img.height).foldl
      (atkStepSpec img.width img.height p ps) (initState img)))

/-- The Atkinson pixel step exactly as claim C2 states it: the propagated
error is one eighth of `original - chosen` where `original` is the pixel's
unmodified input RGB value (`orig`), not the error-adjusted buffered value. -/
def atkStepClaim (W H : ℕ) (p : Pixel) (ps : List Pixel) (orig : ℕ → FPixel)
    (st : DState) (yx : ℕ × ℕ) : DState :=
  let idx := yx.1 * W + yx.2
  let c := st.1 idx
  let n := ColorUtils.findClosestNE c.1 c.2.1 c.2.2 p ps
  let o := orig idx
  let err : FPixel := ((o.1 - (n.1 : ℚ)) * (1/8), (o.2.1 - (n.2.1 : ℚ)) * (1/8),
    (o.2.2 - (n.2.2 : ℚ)) * (1/8))
  (atkDistributeSpec W H yx.2 yx.1 err st.1, Function.update st.2 idx n)

/-- Atkinson dithering exactly as claim C2 states it (error computed from the
unmodified input pixel). -/
def atkinsonClaim (img : Raster) (pal : List Pixel) : Option Raster :=
  match pal with
  | [] => Option.none
  | p :: ps =>
    some (materialize img ((pixelSeq img.width img.height).foldl
      (atkStepClaim img.width img.height p ps
        (fun i => pixToQ (img.data.getD i (0, 0, 0)))) (initState img)))

end DitheringEngine

namespace EffectsEngine

/-- Posterize exactly as claim C5 states it: the mode-specific processing is
performed first regardless of the palette, then the palette remap. -/
def posterizeClaim (img : Raster) (levels : ℤ) (mode : PosterizeMode)
    (palette : Option (List Pixel)) : Raster :=
  let lv := max 2 (min 16 levels)
  let step : ℚ := 255 / ((lv : ℚ) - 1)
  let img1 :=
    if mode = PosterizeMode.luminance then posterizeLumPass step img
    else if mode = PosterizeMode.perChannel then posterizePCPass step img
    else if mode = PosterizeMode.artistic then posterizeArtPass step img
    else img
  match palette with
  | Option.none => img1
  | some pal => if 0 < pal.length then posterizeRemapPass pal img1 else img1

/-- Amended posterize-with-palette: with a non-null palette, `per-channel`
and `artistic` run their per-pixel processing and `luminance` runs none;
then every pixel is remapped through the luminance-sorted palette. -/
def posterizeSpec (img : Raster) (levels : ℤ) (mode : PosterizeMode)
    (pal : List Pixel) : Raster :=
  let lv := max 2 (min 16 levels)
  let step : ℚ := 255 / ((lv : ℚ) - 1)
  let img1 :=
    match mode with
    | PosterizeMode.luminance => img
    | PosterizeMode.perChannel => posterizePCPass step img
    | PosterizeMode.artistic => posterizeArtPass step img
  posterizeRemapPass pal img1

end EffectsEngine

namespace ImageProcessor

/-- The dither stage exactly as claim C3 states it: the strength blend is
taken against the raster as it was immediately before dithering — i.e.
including posterization — rather than against the pre-posterize copy. -/
def processCoreClaim (img : Raster) (pal : List Pixel) (postOn : Bool) (lv : ℤ)
    (pm : PosterizeMode) (useP : Bool) (dt : DitherType) (strength : ℤ)
    (msize : ℕ) : Option Raster :=
  let img1 :=
    if postOn then
      EffectsEngine.posterize img lv pm (if useP then some pal else Option.none)
    else img
  if 0 < strength then
    (ditherRun dt img1 pal msize postOn useP).map fun d =>
      if strength < 100 ∧ dt ≠ DitherType.none then
        EffectsEngine.blendWithOriginal d img1 ((100 - (strength : ℚ)) / 100)
      else d
  else some img1

end ImageProcessor

/-! ### Lemmas about the nearest-color search -/

theorem distTo_nonneg (r g b : ℚ) (c : Pixel) : 0 ≤ ColorUtils.distTo r g b c := by
  unfold ColorUtils.distTo ColorUtils.colorDistanceSq
  have h1 : 0 ≤ (r - (c.1 : ℚ)) * (r - (c.1 : ℚ)) := mul_self_nonneg _
  have h2 : 0 ≤ (g - (c.2.1 : ℚ)) * (g - (c.2.1 : ℚ)) := mul_self_nonneg _
  have h3 : 0 ≤ (b - (c.2.2 : ℚ)) * (b - (c.2.2 : ℚ)) := mul_self_nonneg _
  nlinarith

theorem distTo_self (p : Pixel) :
    ColorUtils.distTo (p.1 : ℚ) (p.2.1 : ℚ) (p.2.2 : ℚ) p = 0 := by
  unfold ColorUtils.distTo ColorUtils.colorDistanceSq
  ring

theorem distTo_eq_zero (p c : Pixel)
    (h : ColorUtils.distTo (p.1 : ℚ) (p.2.1 : ℚ) (p.2.2 : ℚ) c = 0) : c = p := by
  unfold ColorUtils.distTo ColorUtils.colorDistanceSq at h
  have h1 : 0 ≤ ((p.1 : ℚ) - (c.1 : ℚ)) * ((p.1 : ℚ) - (c.1 : ℚ)) := mul_self_nonneg _
  have h2 : 0 ≤ ((p.2.1 : ℚ) - (c.2.1 : ℚ)) * ((p.2.1 : ℚ) - (c.2.1 : ℚ)) := mul_self_nonneg _
  have h3 : 0 ≤ ((p.2.2 : ℚ) - (c.2.2 : ℚ)) * ((p.2.2 : ℚ) - (c.2.2 : ℚ)) := mul_self_nonneg _
  have e1 : ((p.1 : ℚ) - (c.1 : ℚ)) * ((p.1 : ℚ) - (c.1 : ℚ)) = 0 := by nlinarith
  have e2 : ((p.2.1 : ℚ) - (c.2.1 : ℚ)) * ((p.2.1 : ℚ) - (c.2.1 : ℚ)) = 0 := by nlinarith
  have e3 : ((p.2.2 : ℚ) - (c.2.2 : ℚ)) * ((p.2.2 : ℚ) - (c.2.2 : ℚ)) = 0 := by nlinarith
  have f1 : (c.1 : ℚ) = (p.1 : ℚ) := by
    have := mul_self_eq_zero.mp e1; linarith
  have f2 : (c.2.1 : ℚ) = (p.2.1 : ℚ) := by
    have := mul_self_eq_zero.mp e2; linarith
  have f3 : (c.2.2 : ℚ) = (p.2.2 : ℚ) := by
    have := mul_self_eq_zero.mp e3; linarith
  have g1 : c.1 = p.1 := by exact_mod_cast f1
  have g2 : c.2.1 = p.2.1 := by exact_mod_cast f2
  have g3 : c.2.2 = p.2.2 := by exact_mod_cast f3
  obtain ⟨c1, c2, c3⟩ := c
  obtain ⟨p1, p2, p3⟩ := p
  simp_all

theorem fccLoop_mem (r g b : ℚ) (best : Pixel) (bestD : ℚ) (l : List Pixel) :
    ColorUtils.fccLoop r g b best bestD l ∈ best :: l := by
  induction l generalizing best bestD with
  | nil => simp [ColorUtils.fccLoop]
  | cons c cs ih =>
    unfold ColorUtils.fccLoop
    by_cases h : ColorUtils.distTo r g b c < bestD
    · simp only [h, if_true]
      have := ih c (ColorUtils.distTo r g b c)
      rcases List.mem_cons.mp this with h1 | h1
      · simp [h1]
      · simp [List.mem_cons, h1]
    · simp only [h, if_false]
      have := ih best bestD
      rcases List.mem_cons.mp this with h1 | h1
      · simp [h1]
      · simp [List.mem_cons, h1]

theorem findClosestNE_mem (r g b : ℚ) (p : Pixel) (ps : List Pixel) :
    ColorUtils.findClosestNE r g b p ps ∈ p :: ps :=
  fccLoop_mem r g b p _ ps

theorem fccLoop_stay (r g b : ℚ) (best : Pixel) (bestD : ℚ) (l : List Pixel)
    (h : ∀ c ∈ l, ¬ ColorUtils.distTo r g b c < bestD) :
    ColorUtils.fccLoop r g b best bestD l = best := by
  induction l with
  | nil => rfl
  | cons c cs ih =>
    unfold ColorUtils.fccLoop
    have hc : ¬ ColorUtils.distTo r g b c < bestD := h c (List.mem_cons_self c cs)
    simp only [hc, if_false]
    exact ih fun d hd => h d (List.mem_cons_of_mem c hd)

theorem fccLoop_zero_target (r g b : ℚ) (p : Pixel) (l : List Pixel)
    (hz : ColorUtils.distTo r g b p = 0)
    (huniq : ∀ c, ColorUtils.distTo r g b c = 0 → c = p) :
    ∀ (best : Pixel) (bestD : ℚ), p ∈ l → 0 < bestD →
      ColorUtils.fccLoop r g b best bestD l = p := by
  induction l with
  | nil => intro best bestD hp; exact absurd hp (List.not_mem_nil p)
  | cons c cs ih =>
    intro best bestD hp hpos
    unfold ColorUtils.fccLoop
    by_cases hc : c = p
    · subst hc
      simp only [hz, hpos, if_true]
      exact fccLoop_stay r g b c 0 cs fun d _ hd => absurd hd (not_lt.mpr (distTo_nonneg r g b d))
    · have hpcs : p ∈ cs := by
        rcases List.mem_cons.mp hp with h1 | h1
        · exact absurd h1.symm hc
        · exact h1
      have hdc : 0 < ColorUtils.distTo r g b c := by
        rcases lt_or_eq_of_le (distTo_nonneg r g b c) with h1 | h1
        · exact h1
        · exact absurd (huniq c h1.symm) hc
      by_cases hlt : ColorUtils.distTo r g b c < bestD
      · simp only [hlt, if_true]
        exact ih c _ hpcs hdc
      · simp only [hlt, if_false]
        exact ih best bestD hpcs hpos

theorem findClosestNE_self (p q : Pixel) (qs : List Pixel) (hp : p ∈ q :: qs) :
    ColorUtils.findClosestNE (p.1 : ℚ) (p.2.1 : ℚ) (p.2.2 : ℚ) q qs = p := by
  unfold ColorUtils.findClosestNE
  by_cases hq : q = p
  · subst hq
    rw [distTo_self]
    exact fccLoop_stay _ _ _ q 0 qs fun d _ hd =>
      absurd hd (not_lt.mpr (distTo_nonneg _ _ _ d))
  · have hpqs : p ∈ qs := by
      rcases List.mem_cons.mp hp with h1 | h1
      · exact absurd h1.symm hq
      · exact h1
    have hdq : 0 < ColorUtils.distTo (p.1 : ℚ) (p.2.1 : ℚ) (p.2.2 : ℚ) q := by
      rcases lt_or_eq_of_le (distTo_nonneg (p.1 : ℚ) (p.2.1 : ℚ) (p.2.2 : ℚ) q) with h1 | h1
      · exact h1
      · exact absurd (distTo_eq_zero p q h1.symm) hq
    exact fccLoop_zero_target _ _ _ p qs (distTo_self p) (fun c => distTo_eq_zero p c) q _ hpqs hdq

theorem quantizeData_fixed (pal : List Pixel) :
    ∀ l : List Pixel, (∀ p ∈ l, p ∈ pal) → DitheringEngine.quantizeData pal l = some l := by
  intro l
  induction l with
  | nil => intro _; rfl
  | cons p ps ih =>
    intro hmem
    have hp : p ∈ pal := hmem p (List.mem_cons_self p ps)
    match pal, hp with
    | q :: qs, hp =>
      have hfc : ColorUtils.findClosestColor (p.1 : ℚ) (p.2.1 : ℚ) (p.2.2 : ℚ) (q :: qs)
          = some p := by
        show some (ColorUtils.findClosestNE (p.1 : ℚ) (p.2.1 : ℚ) (p.2.2 : ℚ) q qs) = some p
        rw [findClosestNE_self p q qs hp]
      have hps := ih fun d hd => hmem d (List.mem_cons_of_mem p hd)
      unfold DitheringEngine.quantizeData
      rw [hfc, hps]

/-- C7: quantizing a raster whose every pixel already belongs to a palette of
distinct colors is the identity: `DitheringEngine.quantize` (nearest color,
first entry wins ties) returns the input raster bit-identically. -/
theorem C7_quantize_idempotent (img : Raster) (pal : List Pixel)
    (hnd : pal.Nodup) (hmem : ∀ p ∈ img.data, p ∈ pal) :
    DitheringEngine.quantize img pal = some img := by
  unfold DitheringEngine.quantize
  rw [quantizeData_fixed pal img.data hmem]
  cases img
  rfl

/-- Witness for C7 at a concrete palette-only raster. -/
theorem C7_quantize_idempotent_witness :
    DitheringEngine.quantize ⟨2, 1, [(0, 0, 0), (255, 255, 255)]⟩
      [(0, 0, 0), (255, 255, 255)] = some ⟨2, 1, [(0, 0, 0), (255, 255, 255)]⟩ :=
  C7_quantize_idempotent ⟨2, 1, [(0, 0, 0), (255, 255, 255)]⟩
    [(0, 0, 0), (255, 255, 255)] (by decide) (by decide)

theorem quantizeData_single (c : Pixel) :
    ∀ l : List Pixel, DitheringEngine.quantizeData [c] l = some (l.map fun _ => c) := by
  intro l
  induction l with
  | nil => rfl
  | cons p ps ih =>
    unfold DitheringEngine.quantizeData
    have hfc : ColorUtils.findClosestColor (p.1 : ℚ) (p.2.1 : ℚ) (p.2.2 : ℚ) [c]
        = some c := rfl
    rw [hfc, ih]
    rfl

/-- C4 counterexample: a one-color palette does not fail — `quantize` runs to
completion and maps the pixel to that single color, so no
`InvalidPaletteError` is raised for palettes of fewer than 2 colors. -/
theorem C4_counterexample :
    DitheringEngine.quantize ⟨1, 1, [(5, 6, 7)]⟩ [(1, 2, 3)]
      = some ⟨1, 1, [(1, 2, 3)]⟩ := by
  have := quantizeData_single (1, 2, 3) [((5 : ℤ), (6 : ℤ), (7 : ℤ))]
  unfold DitheringEngine.quantize
  rw [this]
  rfl

/-- C4 amended: the code performs no palette-size validation and defines no
`InvalidPaletteError`.  A one-color palette succeeds, mapping every pixel to
that color; only an empty palette fails (an uncaught JS `TypeError` from
destructuring `undefined`, modeled as `none`), for quantize on any non-empty
raster and for the three dithering strategies on any raster. -/
theorem C4_amended (img : Raster) (c : Pixel) (msize : ℕ) :
    (DitheringEngine.quantize img [c]
        = some ⟨img.width, img.height, img.data.map fun _ => c⟩)
    ∧ (img.data ≠ [] → DitheringEngine.quantize img [] = Option.none)
    ∧ DitheringEngine.floydSteinberg img [] = Option.none
    ∧ DitheringEngine.atkinson img [] = Option.none
    ∧ DitheringEngine.orderedDither img [] msize = Option.none := by
  refine ⟨?_, ?_, rfl, rfl, ?_⟩
  · unfold DitheringEngine.quantize
    rw [quantizeData_single c img.data]
    rfl
  · intro hne
    match img, hne with
    | ⟨w, h, p :: ps⟩, _ => rfl
  · unfold DitheringEngine.orderedDither
    simp

/-- Witness for C4's amended statement: the empty palette fails on a
non-empty raster. -/
theorem C4_amended_witness :
    DitheringEngine.quantize ⟨1, 1, [(9, 9, 9)]⟩ [] = Option.none :=
  (C4_amended ⟨1, 1, [(9, 9, 9)]⟩ (0, 0, 0) 4).2.1 (by decide)

/-! ### Scan-order and output-membership lemmas -/

theorem mem_pixelSeq (W H y x : ℕ) :
    (y, x) ∈ DitheringEngine.pixelSeq W H ↔ y < H ∧ x < W := by
  unfold DitheringEngine.pixelSeq
  simp only [List.mem_flatMap, List.mem_map, List.mem_range, Prod.mk.injEq]
  constructor
  · rintro ⟨a, ha, b, hb, rfl, rfl⟩
    exact ⟨ha, hb⟩
  · rintro ⟨hy, hx⟩
    exact ⟨y, hy, x, hx, rfl, rfl⟩

theorem foldl_out_preserve (step : DitheringEngine.DState → ℕ × ℕ → DitheringEngine.DState)
    (pal : List Pixel)
    (hstep : ∀ st yx j, ((step st yx).2 j = st.2 j) ∨ ((step st yx).2 j ∈ pal)) :
    ∀ (l : List (ℕ × ℕ)) (st : DitheringEngine.DState) (j : ℕ),
      st.2 j ∈ pal → (l.foldl step st).2 j ∈ pal := by
  intro l
  induction l with
  | nil => intro st j h; exact h
  | cons a as ih =>
    intro st j h
    rcases hstep st a j with h1 | h1
    · exact ih (step st a) j (h1 ▸ h)
    · exact ih (step st a) j h1

theorem foldl_out_hit (step : DitheringEngine.DState → ℕ × ℕ → DitheringEngine.DState)
    (pal : List Pixel) (W : ℕ)
    (hstep : ∀ st yx j, ((step st yx).2 j = st.2 j) ∨ ((step st yx).2 j ∈ pal))
    (hwrite : ∀ st yx, (step st yx).2 (yx.1 * W + yx.2) ∈ pal) :
    ∀ (l : List (ℕ × ℕ)) (st : DitheringEngine.DState) (y x : ℕ),
      (y, x) ∈ l → (l.foldl step st).2 (y * W + x) ∈ pal := by
  intro l
  induction l with
  | nil => intro st y x h; exact absurd h (List.not_mem_nil _)
  | cons a as ih =>
    intro st y x h
    rcases List.mem_cons.mp h with h1 | h1
    · subst h1
      exact foldl_out_preserve step pal hstep as (step st (y, x)) (y * W + x)
        (hwrite st (y, x))
    · exact ih (step st a) y x h1

theorem fsStep_out_cases (W H : ℕ) (p : Pixel) (ps : List Pixel) :
    ∀ st yx j, ((DitheringEngine.fsStep W H p ps st yx).2 j = st.2 j)
      ∨ ((DitheringEngine.fsStep W H p ps st yx).2 j ∈ p :: ps) := by
  intro st yx j
  unfold DitheringEngine.fsStep
  by_cases h : j = yx.1 * W + yx.2
  · right
    subst h
    simpa using findClosestNE_mem _ _ _ p ps
  · left
    exact Function.update_noteq h _ _

theorem fsStep_out_writes (W H : ℕ) (p : Pixel) (ps : List Pixel) :
    ∀ st yx, (DitheringEngine.fsStep W H p ps st yx).2 (yx.1 * W + yx.2) ∈ p :: ps := by
  intro st yx
  unfold DitheringEngine.fsStep
  simpa using findClosestNE_mem _ _ _ p ps

theorem atkStep_out_cases (W H : ℕ) (p : Pixel) (ps : List Pixel) :
    ∀ st yx j, ((DitheringEngine.atkStep W H p ps st yx).2 j = st.2 j)
      ∨ ((DitheringEngine.atkStep W H p ps st yx).2 j ∈ p :: ps) := by
  intro st yx j
  unfold DitheringEngine.atkStep
  by_cases h : j = yx.1 * W + yx.2
  · right
    subst h
    simpa using findClosestNE_mem _ _ _ p ps
  · left
    exact Function.update_noteq h _ _

theorem atkStep_out_writes (W H : ℕ) (p : Pixel) (ps : List Pixel) :
    ∀ st yx, (DitheringEngine.atkStep W H p ps st yx).2 (yx.1 * W + yx.2) ∈ p :: ps := by
  intro st yx
  unfold DitheringEngine.atkStep
  simpa using findClosestNE_mem _ _ _ p ps

theorem index_cover (W H i : ℕ) (hW : 0 < W) (hi : i < W * H) :
    (i / W, i % W) ∈ DitheringEngine.pixelSeq W H ∧ (i / W) * W + i % W = i := by
  constructor
  · rw [mem_pixelSeq]
    constructor
    · rw [Nat.div_lt_iff_lt_mul hW, Nat.mul_comm]
      exact hi
    · exact Nat.mod_lt _ hW
  · rw [Nat.mul_comm]
    exact Nat.div_add_mod i W

theorem quantizeData_cons (p : Pixel) (ps : List Pixel) :
    ∀ l : List Pixel, DitheringEngine.quantizeData (p :: ps) l
      = some (l.map fun a => ColorUtils.findClosestNE (a.1 : ℚ) (a.2.1 : ℚ) (a.2.2 : ℚ) p ps) := by
  intro l
  induction l with
  | nil => rfl
  | cons a as ih =>
    unfold DitheringEngine.quantizeData
    rw [ih]
    rfl

theorem paletteIndex_toNat_lt (q : ℚ) (n : ℕ) (hn : 0 < n) :
    (ColorUtils.getPaletteIndexByLuminance q n).toNat < n := by
  unfold ColorUtils.getPaletteIndexByLuminance
  have h1 : (0 : ℤ) ≤ max 0 (min ((n : ℤ) - 1) (ColorUtils.jsRound (q / 255 * ((n : ℤ) - 1)))) :=
    le_max_left _ _
  have h2 : max 0 (min ((n : ℤ) - 1) (ColorUtils.jsRound (q / 255 * ((n : ℤ) - 1)))) ≤ (n : ℤ) - 1 := by
    apply max_le
    · omega
    · exact min_le_left _ _
  omega

theorem getD_mem_of_lt (l : List Pixel) (n : ℕ) (d : Pixel) (h : n < l.length) :
    l.getD n d ∈ l := by
  rw [List.getD_eq_getElem l d h]
  exact List.getElem_mem h

theorem sortPalette_mem (pal : List Pixel) (q : Pixel)
    (h : q ∈ ColorUtils.sortPaletteByLuminance pal) : q ∈ pal :=
  (List.perm_insertionSort ColorUtils.lumLE pal).mem_iff.mp h

theorem sortPalette_length (pal : List Pixel) :
    (ColorUtils.sortPaletteByLuminance pal).length = pal.length :=
  (List.perm_insertionSort ColorUtils.lumLE pal).length_eq

theorem fs_membership (img : Raster) (p : Pixel) (ps : List Pixel)
    (hW : 0 < img.width) (hlen : img.data.length = img.width * img.height) :
    ∀ q ∈ (DitheringEngine.materialize img
        ((DitheringEngine.pixelSeq img.width img.height).foldl
          (DitheringEngine.fsStep img.width img.height p ps)
          (DitheringEngine.initState img))).data,
      q ∈ p :: ps := by
  intro q hq
  unfold DitheringEngine.materialize at hq
  simp only [List.mem_map, List.mem_range] at hq
  obtain ⟨i, hi, rfl⟩ := hq
  rw [hlen] at hi
  obtain ⟨hmem, hidx⟩ := index_cover img.width img.height i hW hi
  have := foldl_out_hit (DitheringEngine.fsStep img.width img.height p ps) (p :: ps)
    img.width (fsStep_out_cases _ _ _ _) (fsStep_out_writes _ _ _ _)
    (DitheringEngine.pixelSeq img.width img.height) (DitheringEngine.initState img)
    (i / img.width) (i % img.width) hmem
  rwa [hidx] at this

theorem atk_membership (img : Raster) (p : Pixel) (ps : List Pixel)
    (hW : 0 < img.width) (hlen : img.data.length = img.width * img.height) :
    ∀ q ∈ (DitheringEngine.materialize img
        ((DitheringEngine.pixelSeq img.width img.height).foldl
          (DitheringEngine.atkStep img.width img.height p ps)
          (DitheringEngine.initState img))).data,
      q ∈ p :: ps := by
  intro q hq
  unfold DitheringEngine.materialize at hq
  simp only [List.mem_map, List.mem_range] at hq
  obtain ⟨i, hi, rfl⟩ := hq
  rw [hlen] at hi
  obtain ⟨hmem, hidx⟩ := index_cover img.width img.height i hW hi
  have := foldl_out_hit (DitheringEngine.atkStep img.width img.height p ps) (p :: ps)
    img.width (atkStep_out_cases _ _ _ _) (atkStep_out_writes _ _ _ _)
    (DitheringEngine.pixelSeq img.width img.height) (DitheringEngine.initState img)
    (i / img.width) (i % img.width) hmem
  rwa [hidx] at this

/-- C1: on a raster of positive dimensions and well-formed buffer, with a
non-empty palette (and a documented Bayer size for the ordered strategy),
each of the four dithering strategies succeeds, preserves the width and
height, and produces only pixels that are entries of the input palette. -/
theorem C1_palette_membership (img : Raster) (pal : List Pixel) (msize : ℕ)
    (hW : 0 < img.width) (hH : 0 < img.height) (hpal : pal ≠ [])
    (hlen : img.data.length = img.width * img.height)
    (hms : msize = 2 ∨ msize = 4 ∨ msize = 8) :
    (∃ out, DitheringEngine.quantize img pal = some out ∧ out.width = img.width
      ∧ out.height = img.height ∧ ∀ q ∈ out.data, q ∈ pal)
    ∧ (∃ out, DitheringEngine.floydSteinberg img pal = some out ∧ out.width = img.width
      ∧ out.height = img.height ∧ ∀ q ∈ out.data, q ∈ pal)
    ∧ (∃ out, DitheringEngine.atkinson img pal = some out ∧ out.width = img.width
      ∧ out.height = img.height ∧ ∀ q ∈ out.data, q ∈ pal)
    ∧ (∃ out, DitheringEngine.orderedDither img pal msize = some out ∧ out.width = img.width
      ∧ out.height = img.height ∧ ∀ q ∈ out.data, q ∈ pal) := by
  obtain ⟨p, ps, rfl⟩ : ∃ p ps, pal = p :: ps := by
    cases pal with
    | nil => exact absurd rfl hpal
    | cons p ps => exact ⟨p, ps, rfl⟩
  refine ⟨?_, ?_, ?_, ?_⟩
  · refine ⟨⟨img.width, img.height, img.data.map fun a =>
      ColorUtils.findClosestNE (a.1 : ℚ) (a.2.1 : ℚ) (a.2.2 : ℚ) p ps⟩, ?_, rfl, rfl, ?_⟩
    · unfold DitheringEngine.quantize
      rw [quantizeData_cons]
      rfl
    · intro q hq
      simp only [List.mem_map] at hq
      obtain ⟨a, _, rfl⟩ := hq
      exact findClosestNE_mem _ _ _ p ps
  · exact ⟨_, rfl, rfl, rfl, fs_membership img p ps hW hlen⟩
  · exact ⟨_, rfl, rfl, rfl, atk_membership img p ps hW hlen⟩
  · have hne : ¬ (p :: ps = ([] : List Pixel)) := by simp
    refine ⟨⟨img.width, img.height, (List.range img.data.length).map fun i =>
      if i < img.width * img.height then
        DitheringEngine.orderedPixel msize (ColorUtils.sortPaletteByLuminance (p :: ps))
          (i / img.width) (i % img.width) (img.data.getD i (0, 0, 0))
      else img.data.getD i (0, 0, 0)⟩, ?_, rfl, rfl, ?_⟩
    · unfold DitheringEngine.orderedDither
      rw [if_neg hne]
    · intro q hq
      simp only [List.mem_map, List.mem_range] at hq
      obtain ⟨i, hi, rfl⟩ := hq
      rw [hlen] at hi
      rw [if_pos hi]
      unfold DitheringEngine.orderedPixel
      apply sortPalette_mem
      apply getD_mem_of_lt
      apply paletteIndex_toNat_lt
      rw [sortPalette_length]
      simp

/-! ### Floyd–Steinberg: code distribution = specified weight table (C6) -/

theorem fsDistribute_eq_spec (W H x y : ℕ) (err : FPixel) (buf : ℕ → FPixel)
    (hx : x < W) (hy : y < H) :
    DitheringEngine.fsDistribute W H x y err buf
      = DitheringEngine.fsDistributeSpec W H x y err buf := by
  unfold DitheringEngine.fsDistribute DitheringEngine.fsDistributeSpec DitheringEngine.fsWeights
  simp only [List.foldl_cons, List.foldl_nil]
  have c1 : (0 ≤ (x:ℤ) + 1 ∧ (x:ℤ) + 1 < (W:ℤ) ∧ 0 ≤ (y:ℤ) + 0 ∧ (y:ℤ) + 0 < (H:ℤ))
      ↔ x + 1 < W := by omega
  have c2 : (0 ≤ (x:ℤ) + -1 ∧ (x:ℤ) + -1 < (W:ℤ) ∧ 0 ≤ (y:ℤ) + 1 ∧ (y:ℤ) + 1 < (H:ℤ))
      ↔ (0 < x ∧ y + 1 < H) := by omega
  have c3 : (0 ≤ (x:ℤ) + 0 ∧ (x:ℤ) + 0 < (W:ℤ) ∧ 0 ≤ (y:ℤ) + 1 ∧ (y:ℤ) + 1 < (H:ℤ))
      ↔ y + 1 < H := by omega
  have c4 : (0 ≤ (x:ℤ) + 1 ∧ (x:ℤ) + 1 < (W:ℤ) ∧ 0 ≤ (y:ℤ) + 1 ∧ (y:ℤ) + 1 < (H:ℤ))
      ↔ (x + 1 < W ∧ y + 1 < H) := by omega
  have e1 : (((y:ℤ) + 0) * W + ((x:ℤ) + 1)).toNat = y * W + x + 1 := by
    have e : ((y:ℤ) + 0) * (W:ℤ) = ((y * W : ℕ) : ℤ) := by push_cast; ring
    rw [e]; omega
  have e2 : 0 < x → (((y:ℤ) + 1) * W + ((x:ℤ) + -1)).toNat = (y + 1) * W + x - 1 := by
    intro hx1
    have e : ((y:ℤ) + 1) * (W:ℤ) = (((y + 1) * W : ℕ) : ℤ) := by push_cast; ring
    rw [e]; omega
  have e3 : (((y:ℤ) + 1) * W + ((x:ℤ) + 0)).toNat = (y + 1) * W + x := by
    have e : ((y:ℤ) + 1) * (W:ℤ) = (((y + 1) * W : ℕ) : ℤ) := by push_cast; ring
    rw [e]; omega
  have e4 : (((y:ℤ) + 1) * W + ((x:ℤ) + 1)).toNat = (y + 1) * W + x + 1 := by
    have e : ((y:ℤ) + 1) * (W:ℤ) = (((y + 1) * W : ℕ) : ℤ) := by push_cast; ring
    rw [e]; omega
  by_cases h1 : x + 1 < W <;> by_cases h2 : y + 1 < H <;> by_cases h3 : 0 < x <;>
    simp only [c1, c2, c3, c4, h1, h2, h3, and_true, true_and, and_false, false_and,
      if_true, if_false, ite_true, ite_false, e1, e3, e4, not_true, not_false_iff] <;>
    rw [e2 h3]

theorem fsStep_eq_spec (W H : ℕ) (p : Pixel) (ps : List Pixel)
    (st : DitheringEngine.DState) (yx : ℕ × ℕ) (hx : yx.2 < W) (hy : yx.1 < H) :
    DitheringEngine.fsStep W H p ps st yx = DitheringEngine.fsStepSpec W H p ps st yx := by
  unfold DitheringEngine.fsStep DitheringEngine.fsStepSpec
  dsimp only
  rw [fsDistribute_eq_spec W H yx.2 yx.1 _ _ hx hy]

theorem foldl_congr_mem (f g : DitheringEngine.DState → ℕ × ℕ → DitheringEngine.DState)
    (l : List (ℕ × ℕ)) (h : ∀ b a, a ∈ l → f b a = g b a) :
    ∀ b, l.foldl f b = l.foldl g b := by
  induction l with
  | nil => intro b; rfl
  | cons c cs ih =>
    intro b
    simp only [List.foldl_cons]
    rw [h b c (List.mem_cons_self c cs)]
    exact ih (fun b' a ha => h b' a (List.mem_cons_of_mem c ha)) _

/-- C6: Floyd–Steinberg dithering equals its specification: pixels processed
in row-major order, signed error `buffered - chosen`, distributed by the
weight table 7/16 right, 3/16 bottom-left, 5/16 bottom, 1/16 bottom-right,
with out-of-bounds shares dropped. -/
theorem C6_floydSteinberg_eq_spec (img : Raster) (pal : List Pixel) :
    DitheringEngine.floydSteinberg img pal = DitheringEngine.floydSteinbergSpec img pal := by
  cases pal with
  | nil => rfl
  | cons p ps =>
    unfold DitheringEngine.floydSteinberg DitheringEngine.floydSteinbergSpec
    have hfold : (DitheringEngine.pixelSeq img.width img.height).foldl
        (DitheringEngine.fsStep img.width img.height p ps) (DitheringEngine.initState img)
        = (DitheringEngine.pixelSeq img.width img.height).foldl
          (DitheringEngine.fsStepSpec img.width img.height p ps)
          (DitheringEngine.initState img) := by
      apply foldl_congr_mem
      intro b a ha
      have hb : a.1 < img.height ∧ a.2 < img.width := by
        have := (mem_pixelSeq img.width img.height a.1 a.2).mp (by simpa using ha)
        exact this
      exact fsStep_eq_spec img.width img.height p ps b a hb.2 hb.1
    dsimp only
    rw [hfold]

/-! ### Atkinson: code distribution = specified offset table (C2) -/

theorem atkDistribute_eq_spec (W H x y : ℕ) (err : FPixel) (buf : ℕ → FPixel) :
    DitheringEngine.atkDistribute W H x y err buf
      = DitheringEngine.atkDistributeSpec W H x y err buf := by
  unfold DitheringEngine.atkDistribute DitheringEngine.atkDistributeSpec
  unfold DitheringEngine.atkNeighbors DitheringEngine.atkOffsets
  simp only [List.foldl_cons, List.foldl_nil]
  have c1 : (0 ≤ (x:ℤ) + 1 ∧ (x:ℤ) + 1 < (W:ℤ) ∧ 0 ≤ (y:ℤ) + 0 ∧ (y:ℤ) + 0 < (H:ℤ))
      ↔ (0 ≤ (y:ℤ) + 0 ∧ (y:ℤ) + 0 < (H:ℤ) ∧ 0 ≤ (x:ℤ) + 1 ∧ (x:ℤ) + 1 < (W:ℤ)) := by omega
  have c2 : (0 ≤ (x:ℤ) + 2 ∧ (x:ℤ) + 2 < (W:ℤ) ∧ 0 ≤ (y:ℤ) + 0 ∧ (y:ℤ) + 0 < (H:ℤ))
      ↔ (0 ≤ (y:ℤ) + 0 ∧ (y:ℤ) + 0 < (H:ℤ) ∧ 0 ≤ (x:ℤ) + 2 ∧ (x:ℤ) + 2 < (W:ℤ)) := by omega
  have c3 : (0 ≤ (x:ℤ) + -1 ∧ (x:ℤ) + -1 < (W:ℤ) ∧ 0 ≤ (y:ℤ) + 1 ∧ (y:ℤ) + 1 < (H:ℤ))
      ↔ (0 ≤ (y:ℤ) + 1 ∧ (y:ℤ) + 1 < (H:ℤ) ∧ 0 ≤ (x:ℤ) + -1 ∧ (x:ℤ) + -1 < (W:ℤ)) := by omega
  have c4 : (0 ≤ (x:ℤ) + 0 ∧ (x:ℤ) + 0 < (W:ℤ) ∧ 0 ≤ (y:ℤ) + 1 ∧ (y:ℤ) + 1 < (H:ℤ))
      ↔ (0 ≤ (y:ℤ) + 1 ∧ (y:ℤ) + 1 < (H:ℤ) ∧ 0 ≤ (x:ℤ) + 0 ∧ (x:ℤ) + 0 < (W:ℤ)) := by omega
  have c5 : (0 ≤ (x:ℤ) + 1 ∧ (x:ℤ) + 1 < (W:ℤ) ∧ 0 ≤ (y:ℤ) + 1 ∧ (y:ℤ) + 1 < (H:ℤ))
      ↔ (0 ≤ (y:ℤ) + 1 ∧ (y:ℤ) + 1 < (H:ℤ) ∧ 0 ≤ (x:ℤ) + 1 ∧ (x:ℤ) + 1 < (W:ℤ)) := by omega
  have c6 : (0 ≤ (x:ℤ) + 0 ∧ (x:ℤ) + 0 < (W:ℤ) ∧ 0 ≤ (y:ℤ) + 2 ∧ (y:ℤ) + 2 < (H:ℤ))
      ↔ (0 ≤ (y:ℤ) + 2 ∧ (y:ℤ) + 2 < (H:ℤ) ∧ 0 ≤ (x:ℤ) + 0 ∧ (x:ℤ) + 0 < (W:ℤ)) := by omega
  simp only [c1, c2, c3, c4, c5, c6]

theorem atkStep_eq_spec (W H : ℕ) (p : Pixel) (ps : List Pixel)
    (st : DitheringEngine.DState) (yx : ℕ × ℕ) :
    DitheringEngine.atkStep W H p ps st yx = DitheringEngine.atkStepSpec W H p ps st yx := by
  unfold DitheringEngine.atkStep DitheringEngine.atkStepSpec
  dsimp only
  rw [atkDistribute_eq_spec]

/-- C2 amended: Atkinson dithering, with the error taken from the buffered
(error-accumulated) value rather than the unmodified input: same scan order
and nearest-color step as Floyd–Steinberg; the propagated error is
`(buffered - chosen) * 1/8`, given unchanged to the six neighbors of the
offset table `(x+1,y), (x+2,y), (x-1,y+1), (x,y+1), (x+1,y+1), (x,y+2)`,
skipping out-of-bounds neighbors (so 2/8 of the error is discarded). -/
theorem C2_amended_atkinson_eq_spec (img : Raster) (pal : List Pixel) :
    DitheringEngine.atkinson img pal = DitheringEngine.atkinsonSpec img pal := by
  cases pal with
  | nil => rfl
  | cons p ps =>
    unfold DitheringEngine.atkinson DitheringEngine.atkinsonSpec
    have hfold : (DitheringEngine.pixelSeq img.width img.height).foldl
        (DitheringEngine.atkStep img.width img.height p ps) (DitheringEngine.initState img)
        = (DitheringEngine.pixelSeq img.width img.height).foldl
          (DitheringEngine.atkStepSpec img.width img.height p ps)
          (DitheringEngine.initState img) := by
      apply foldl_congr_mem
      intro b a _
      exact atkStep_eq_spec img.width img.height p ps b a
    dsimp only
    rw [hfold]

/-- The 3×1 gray test raster for the Atkinson counterexample. -/
def atkTestImg : Raster := ⟨3, 1, [(100, 100, 100), (100, 100, 100), (102, 102, 102)]⟩

/-- A dithering state whose buffer and output are read from concrete lists. -/
def lstate (B : List FPixel) (O : List Pixel) : DitheringEngine.DState :=
  (fun i => B.getD i (0, 0, 0), fun i => O.getD i (0, 0, 0))

theorem atkE_s0 : DitheringEngine.initState atkTestImg
    = lstate [(100, 100, 100), (100, 100, 100), (102, 102, 102)]
        [(100, 100, 100), (100, 100, 100), (102, 102, 102)] := by
  unfold DitheringEngine.initState atkTestImg lstate
  refine Prod.ext ?_ ?_
  · funext i
    rcases i with _ | _ | _ | i <;> norm_num [List.getD, pixToQ]
  · funext i
    rcases i with _ | _ | _ | i <;> norm_num [List.getD]

theorem atkE_s1 : DitheringEngine.atkStep 3 1 (0, 0, 0) [(255, 255, 255)]
    (lstate [(100, 100, 100), (100, 100, 100), (102, 102, 102)]
      [(100, 100, 100), (100, 100, 100), (102, 102, 102)]) (0, 0)
    = lstate [(100, 100, 100), (225/2, 225/2, 225/2), (229/2, 229/2, 229/2)]
        [(0, 0, 0), (100, 100, 100), (102, 102, 102)] := by
  have t0 : Int.toNat 0 = 0 := rfl
  have t1 : Int.toNat 1 = 1 := rfl
  have t2 : Int.toNat 2 = 2 := rfl
  unfold DitheringEngine.atkStep lstate
  refine Prod.ext ?_ ?_
  · funext i
    simp only [DitheringEngine.atkDistribute, DitheringEngine.atkNeighbors,
      DitheringEngine.addAt, ColorUtils.findClosestNE, ColorUtils.fccLoop,
      ColorUtils.distTo, ColorUtils.colorDistanceSq, pixToQ,
      List.foldl_cons, List.foldl_nil]
    norm_num [Function.update, List.getD, t0, t1, t2]
    try (rcases i with _ | _ | _ | i <;> norm_num [t0, t1, t2] <;> try omega)
  · funext i
    simp only [ColorUtils.findClosestNE, ColorUtils.fccLoop, ColorUtils.distTo,
      ColorUtils.colorDistanceSq, pixToQ]
    norm_num [Function.update, List.getD, t0, t1, t2]
    try (rcases i with _ | _ | _ | i <;> norm_num [t0, t1, t2] <;> try omega)

theorem atkE_s2 : DitheringEngine.atkStep 3 1 (0, 0, 0) [(255, 255, 255)]
    (lstate [(100, 100, 100), (225/2, 225/2, 225/2), (229/2, 229/2, 229/2)]
      [(0, 0, 0), (100, 100, 100), (102, 102, 102)]) (0, 1)
    = lstate [(100, 100, 100), (225/2, 225/2, 225/2), (2057/16, 2057/16, 2057/16)]
        [(0, 0, 0), (0, 0, 0), (102, 102, 102)] := by
  have t0 : Int.toNat 0 = 0 := rfl
  have t1 : Int.toNat 1 = 1 := rfl
  have t2 : Int.toNat 2 = 2 := rfl
  unfold DitheringEngine.atkStep lstate
  refine Prod.ext ?_ ?_
  · funext i
    simp only [DitheringEngine.atkDistribute, DitheringEngine.atkNeighbors,
      DitheringEngine.addAt, ColorUtils.findClosestNE, ColorUtils.fccLoop,
      ColorUtils.distTo, ColorUtils.colorDistanceSq, pixToQ,
      List.foldl_cons, List.foldl_nil]
    norm_num [Function.update, List.getD, t0, t1, t2]
    try (rcases i with _ | _ | _ | i <;> norm_num [t0, t1, t2] <;> try omega)
  · funext i
    simp only [ColorUtils.findClosestNE, ColorUtils.fccLoop, ColorUtils.distTo,
      ColorUtils.colorDistanceSq, pixToQ]
    norm_num [Function.update, List.getD, t0, t1, t2]
    try (rcases i with _ | _ | _ | i <;> norm_num [t0, t1, t2] <;> try omega)

theorem atkE_s3 : DitheringEngine.atkStep 3 1 (0, 0, 0) [(255, 255, 255)]
    (lstate [(100, 100, 100), (225/2, 225/2, 225/2), (2057/16, 2057/16, 2057/16)]
      [(0, 0, 0), (0, 0, 0), (102, 102, 102)]) (0, 2)
    = lstate [(100, 100, 100), (225/2, 225/2, 225/2), (2057/16, 2057/16, 2057/16)]
        [(0, 0, 0), (0, 0, 0), (255, 255, 255)] := by
  have t0 : Int.toNat 0 = 0 := rfl
  have t1 : Int.toNat 1 = 1 := rfl
  have t2 : Int.toNat 2 = 2 := rfl
  unfold DitheringEngine.atkStep lstate
  refine Prod.ext ?_ ?_
  · funext i
    simp only [DitheringEngine.atkDistribute, DitheringEngine.atkNeighbors,
      DitheringEngine.addAt, ColorUtils.findClosestNE, ColorUtils.fccLoop,
      ColorUtils.distTo, ColorUtils.colorDistanceSq, pixToQ,
      List.foldl_cons, List.foldl_nil]
    norm_num [Function.update, List.getD, t0, t1, t2]
    try (rcases i with _ | _ | _ | i <;> norm_num [t0, t1, t2] <;> try omega)
  · funext i
    simp only [ColorUtils.findClosestNE, ColorUtils.fccLoop, ColorUtils.distTo,
      ColorUtils.colorDistanceSq, pixToQ]
    norm_num [Function.update, List.getD, t0, t1, t2]
    try (rcases i with _ | _ | _ | i <;> norm_num [t0, t1, t2] <;> try omega)

theorem atkinson_eval3 :
    DitheringEngine.atkinson atkTestImg [(0, 0, 0), (255, 255, 255)]
      = some ⟨3, 1, [(0, 0, 0), (0, 0, 0), (255, 255, 255)]⟩ := by
  have hseq : DitheringEngine.pixelSeq 3 1 = [(0, 0), (0, 1), (0, 2)] := rfl
  show some (DitheringEngine.materialize atkTestImg
    ((DitheringEngine.pixelSeq atkTestImg.width atkTestImg.height).foldl
      (DitheringEngine.atkStep atkTestImg.width atkTestImg.height (0, 0, 0) [(255, 255, 255)])
      (DitheringEngine.initState atkTestImg))) = _
  have hwh : atkTestImg.width = 3 ∧ atkTestImg.height = 1 := ⟨rfl, rfl⟩
  rw [hwh.1, hwh.2, hseq]
  simp only [List.foldl_cons, List.foldl_nil]
  rw [atkE_s0, atkE_s1, atkE_s2, atkE_s3]
  norm_num [DitheringEngine.materialize, lstate, atkTestImg, List.range_succ, List.getD]

theorem atkC_s1 : DitheringEngine.atkStepClaim 3 1 (0, 0, 0) [(255, 255, 255)]
    (fun i => pixToQ (atkTestImg.data.getD i (0, 0, 0)))
    (lstate [(100, 100, 100), (100, 100, 100), (102, 102, 102)]
      [(100, 100, 100), (100, 100, 100), (102, 102, 102)]) (0, 0)
    = lstate [(100, 100, 100), (225/2, 225/2, 225/2), (229/2, 229/2, 229/2)]
        [(0, 0, 0), (100, 100, 100), (102, 102, 102)] := by
  have t0 : Int.toNat 0 = 0 := rfl
  have t1 : Int.toNat 1 = 1 := rfl
  have t2 : Int.toNat 2 = 2 := rfl
  unfold DitheringEngine.atkStepClaim lstate atkTestImg
  refine Prod.ext ?_ ?_
  · funext i
    simp only [DitheringEngine.atkDistributeSpec, DitheringEngine.atkOffsets,
      DitheringEngine.addAt, ColorUtils.findClosestNE, ColorUtils.fccLoop,
      ColorUtils.distTo, ColorUtils.colorDistanceSq, pixToQ,
      List.foldl_cons, List.foldl_nil]
    norm_num [Function.update, List.getD, t0, t1, t2]
    try (rcases i with _ | _ | _ | i <;> norm_num [t0, t1, t2] <;> try omega)
  · funext i
    simp only [ColorUtils.findClosestNE, ColorUtils.fccLoop, ColorUtils.distTo,
      ColorUtils.colorDistanceSq, pixToQ]
    norm_num [Function.update, List.getD, t0, t1, t2]
    try (rcases i with _ | _ | _ | i <;> norm_num [t0, t1, t2] <;> try omega)

theorem atkC_s2 : DitheringEngine.atkStepClaim 3 1 (0, 0, 0) [(255, 255, 255)]
    (fun i => pixToQ (atkTestImg.data.getD i (0, 0, 0)))
    (lstate [(100, 100, 100), (225/2, 225/2, 225/2), (229/2, 229/2, 229/2)]
      [(0, 0, 0), (100, 100, 100), (102, 102, 102)]) (0, 1)
    = lstate [(100, 100, 100), (225/2, 225/2, 225/2), (127, 127, 127)]
        [(0, 0, 0), (0, 0, 0), (102, 102, 102)] := by
  have t0 : Int.toNat 0 = 0 := rfl
  have t1 : Int.toNat 1 = 1 := rfl
  have t2 : Int.toNat 2 = 2 := rfl
  unfold DitheringEngine.atkStepClaim lstate atkTestImg
  refine Prod.ext ?_ ?_
  · funext i
    simp only [DitheringEngine.atkDistributeSpec, DitheringEngine.atkOffsets,
      DitheringEngine.addAt, ColorUtils.findClosestNE, ColorUtils.fccLoop,
      ColorUtils.distTo, ColorUtils.colorDistanceSq, pixToQ,
      List.foldl_cons, List.foldl_nil]
    norm_num [Function.update, List.getD, t0, t1, t2]
    try (rcases i with _ | _ | _ | i <;> norm_num [t0, t1, t2] <;> try omega)
  · funext i
    simp only [ColorUtils.findClosestNE, ColorUtils.fccLoop, ColorUtils.distTo,
      ColorUtils.colorDistanceSq, pixToQ]
    norm_num [Function.update, List.getD, t0, t1, t2]
    try (rcases i with _ | _ | _ | i <;> norm_num [t0, t1, t2] <;> try omega)

theorem atkC_s3 : DitheringEngine.atkStepClaim 3 1 (0, 0, 0) [(255, 255, 255)]
    (fun i => pixToQ (atkTestImg.data.getD i (0, 0, 0)))
    (lstate [(100, 100, 100), (225/2, 225/2, 225/2), (127, 127, 127)]
      [(0, 0, 0), (0, 0, 0), (102, 102, 102)]) (0, 2)
    = lstate [(100, 100, 100), (225/2, 225/2, 225/2), (127, 127, 127)]
        [(0, 0, 0), (0, 0, 0), (0, 0, 0)] := by
  have t0 : Int.toNat 0 = 0 := rfl
  have t1 : Int.toNat 1 = 1 := rfl
  have t2 : Int.toNat 2 = 2 := rfl
  unfold DitheringEngine.atkStepClaim lstate atkTestImg
  refine Prod.ext ?_ ?_
  · funext i
    simp only [DitheringEngine.atkDistributeSpec, DitheringEngine.atkOffsets,
      DitheringEngine.addAt, ColorUtils.findClosestNE, ColorUtils.fccLoop,
      ColorUtils.distTo, ColorUtils.colorDistanceSq, pixToQ,
      List.foldl_cons, List.foldl_nil]
    norm_num [Function.update, List.getD, t0, t1, t2]
    try (rcases i with _ | _ | _ | i <;> norm_num [t0, t1, t2] <;> try omega)
  · funext i
    simp only [ColorUtils.findClosestNE, ColorUtils.fccLoop, ColorUtils.distTo,
      ColorUtils.colorDistanceSq, pixToQ]
    norm_num [Function.update, List.getD, t0, t1, t2]
    try (rcases i with _ | _ | _ | i <;> norm_num [t0, t1, t2] <;> try omega)

theorem atkinsonClaim_eval3 :
    DitheringEngine.atkinsonClaim atkTestImg [(0, 0, 0), (255, 255, 255)]
      = some ⟨3, 1, [(0, 0, 0), (0, 0, 0), (0, 0, 0)]⟩ := by
  have hseq : DitheringEngine.pixelSeq 3 1 = [(0, 0), (0, 1), (0, 2)] := rfl
  show some (DitheringEngine.materialize atkTestImg
    ((DitheringEngine.pixelSeq atkTestImg.width atkTestImg.height).foldl
      (DitheringEngine.atkStepClaim atkTestImg.width atkTestImg.height (0, 0, 0)
        [(255, 255, 255)] (fun i => pixToQ (atkTestImg.data.getD i (0, 0, 0))))
      (DitheringEngine.initState atkTestImg))) = _
  have hwh : atkTestImg.width = 3 ∧ atkTestImg.height = 1 := ⟨rfl, rfl⟩
  rw [hwh.1, hwh.2, hseq]
  simp only [List.foldl_cons, List.foldl_nil]
  rw [atkE_s0, atkC_s1, atkC_s2, atkC_s3]
  rfl

/-- C2 counterexample: on the 3×1 gray raster `[100, 100, 102]` with the
black/white palette, Atkinson as the code implements it (error from the
buffered, error-accumulated value) turns the last pixel white, while the
rule as the claim words it (error one eighth of `original - chosen` with
`original` the unmodified input RGB) leaves it black. -/
theorem C2_counterexample :
    DitheringEngine.atkinson atkTestImg [(0, 0, 0), (255, 255, 255)]
      ≠ DitheringEngine.atkinsonClaim atkTestImg [(0, 0, 0), (255, 255, 255)] := by
  rw [atkinson_eval3, atkinsonClaim_eval3]
  simp

/-! ### Posterize with palette (C5) -/

/-- C5 amended: with a non-null, non-empty palette, `per-channel` and
`artistic` first run their per-pixel processing and `luminance` runs none
(its branch requires a null palette); afterwards every pixel is remapped by
luminance through the luminance-sorted palette. -/
theorem C5_amended_posterize_eq_spec (img : Raster) (levels : ℤ) (mode : PosterizeMode)
    (pal : List Pixel) (hpal : pal ≠ []) :
    EffectsEngine.posterize img levels mode (some pal)
      = EffectsEngine.posterizeSpec img levels mode pal := by
  have hlen : 0 < pal.length := List.length_pos.mpr hpal
  cases mode <;>
    simp [EffectsEngine.posterize, EffectsEngine.posterizeSpec, hlen]

/-- Witness for C5's amended statement at a concrete raster and palette. -/
theorem C5_amended_witness :
    EffectsEngine.posterize ⟨1, 1, [(7, 7, 7)]⟩ 4 PosterizeMode.luminance (some [(1, 2, 3)])
      = EffectsEngine.posterizeSpec ⟨1, 1, [(7, 7, 7)]⟩ 4 PosterizeMode.luminance [(1, 2, 3)] :=
  C5_amended_posterize_eq_spec ⟨1, 1, [(7, 7, 7)]⟩ 4 PosterizeMode.luminance [(1, 2, 3)]
    (by decide)

theorem remap_eval100 :
    EffectsEngine.posterizeRemapPass [(0, 0, 0), (128, 128, 128), (255, 255, 255)]
      ⟨1, 1, [(100, 100, 100)]⟩ = ⟨1, 1, [(128, 128, 128)]⟩ := by
  have hsort : ColorUtils.sortPaletteByLuminance [(0, 0, 0), (128, 128, 128), (255, 255, 255)]
      = [(0, 0, 0), (128, 128, 128), (255, 255, 255)] := by decide
  have hlum : ColorUtils.getLuminance 100 100 100 = 100 := by decide
  have t1 : Int.toNat 1 = 1 := rfl
  unfold EffectsEngine.posterizeRemapPass
  simp only [hsort]
  norm_num [hlum, ColorUtils.getPaletteIndexByLuminance, ColorUtils.jsRound, List.getD, t1]

theorem remap_eval0 :
    EffectsEngine.posterizeRemapPass [(0, 0, 0), (128, 128, 128), (255, 255, 255)]
      ⟨1, 1, [(0, 0, 0)]⟩ = ⟨1, 1, [(0, 0, 0)]⟩ := by
  have hsort : ColorUtils.sortPaletteByLuminance [(0, 0, 0), (128, 128, 128), (255, 255, 255)]
      = [(0, 0, 0), (128, 128, 128), (255, 255, 255)] := by decide
  have hlum0 : ColorUtils.getLuminance 0 0 0 = 0 := by decide
  have t0 : Int.toNat 0 = 0 := rfl
  unfold EffectsEngine.posterizeRemapPass
  simp only [hsort]
  norm_num [hlum0, ColorUtils.getPaletteIndexByLuminance, ColorUtils.jsRound, List.getD, t0]

theorem lumPass_eval100 :
    EffectsEngine.posterizeLumPass 255 ⟨1, 1, [(100, 100, 100)]⟩ = ⟨1, 1, [(0, 0, 0)]⟩ := by
  have hlum : ColorUtils.getLuminance 100 100 100 = 100 := by decide
  unfold EffectsEngine.posterizeLumPass
  norm_num [hlum, ColorUtils.jsRound, EffectsEngine.u8, EffectsEngine.rhe, ColorUtils.clampQ]

theorem posterize_eval100 :
    EffectsEngine.posterize ⟨1, 1, [(100, 100, 100)]⟩ 2 PosterizeMode.luminance
      (some [(0, 0, 0), (128, 128, 128), (255, 255, 255)])
    = ⟨1, 1, [(128, 128, 128)]⟩ := by
  have hred : EffectsEngine.posterize ⟨1, 1, [(100, 100, 100)]⟩ 2 PosterizeMode.luminance
      (some [(0, 0, 0), (128, 128, 128), (255, 255, 255)])
      = EffectsEngine.posterizeRemapPass [(0, 0, 0), (128, 128, 128), (255, 255, 255)]
          ⟨1, 1, [(100, 100, 100)]⟩ := by
    simp [EffectsEngine.posterize]
  rw [hred, remap_eval100]

theorem posterizeClaim_eval100 :
    EffectsEngine.posterizeClaim ⟨1, 1, [(100, 100, 100)]⟩ 2 PosterizeMode.luminance
      (some [(0, 0, 0), (128, 128, 128), (255, 255, 255)])
    = ⟨1, 1, [(0, 0, 0)]⟩ := by
  have hred : EffectsEngine.posterizeClaim ⟨1, 1, [(100, 100, 100)]⟩ 2 PosterizeMode.luminance
      (some [(0, 0, 0), (128, 128, 128), (255, 255, 255)])
      = EffectsEngine.posterizeRemapPass [(0, 0, 0), (128, 128, 128), (255, 255, 255)]
          (EffectsEngine.posterizeLumPass (255 / ((max 2 (min 16 (2 : ℤ)) : ℚ) - 1))
            ⟨1, 1, [(100, 100, 100)]⟩) := by
    simp [EffectsEngine.posterizeClaim]
  have hstep : (255 / ((max 2 (min 16 (2 : ℤ)) : ℚ) - 1)) = 255 := by
    norm_num [show (max 2 (min 16 (2 : ℤ))) = 2 from by decide]
  rw [hred, hstep, lumPass_eval100, remap_eval0]

/-- C5 counterexample: posterizing the 1×1 gray-100 raster at `levels = 2` in
`luminance` mode with a 3-color palette: the code skips the luminance
processing entirely (its branch requires a null palette) and remaps the pixel
to the middle palette entry, while the claim's order (mode processing first,
then remap) would darken the pixel to luminance 0 and pick the darkest
entry. -/
theorem C5_counterexample :
    EffectsEngine.posterize ⟨1, 1, [(100, 100, 100)]⟩ 2 PosterizeMode.luminance
      (some [(0, 0, 0), (128, 128, 128), (255, 255, 255)])
    ≠ EffectsEngine.posterizeClaim ⟨1, 1, [(100, 100, 100)]⟩ 2 PosterizeMode.luminance
      (some [(0, 0, 0), (128, 128, 128), (255, 255, 255)]) := by
  rw [posterize_eval100, posterizeClaim_eval100]
  simp

/-! ### Pipeline dither stage and strength blend (C3) -/

theorem processCore_skip_case (img : Raster) (pal : List Pixel) (postOn : Bool)
    (lv : ℤ) (pm : PosterizeMode) (useP : Bool) (dt : DitherType) (s : ℤ) (msize : ℕ)
    (hs : s = 0) :
    ImageProcessor.processCore img pal postOn lv pm useP dt s msize
      = some (if postOn then
          EffectsEngine.posterize img lv pm (if useP then some pal else Option.none)
        else img) := by
  subst hs
  unfold ImageProcessor.processCore
  simp

theorem processCore_blend_case (img : Raster) (pal : List Pixel) (postOn : Bool)
    (lv : ℤ) (pm : PosterizeMode) (useP : Bool) (dt : DitherType) (s : ℤ) (msize : ℕ)
    (hdt : dt ≠ DitherType.none) (h0 : 0 < s) (h100 : s < 100) :
    ImageProcessor.processCore img pal postOn lv pm useP dt s msize
      = (ImageProcessor.ditherRun dt
          (if postOn then
            EffectsEngine.posterize img lv pm (if useP then some pal else Option.none)
          else img) pal msize postOn useP).map
          (fun d => EffectsEngine.blendWithOriginal d img ((100 - (s : ℚ)) / 100)) := by
  unfold ImageProcessor.processCore
  simp only [if_pos h0]
  simp [h100, hdt]

theorem processCore_none_case (img : Raster) (pal : List Pixel) (postOn : Bool)
    (lv : ℤ) (pm : PosterizeMode) (useP : Bool) (dt : DitherType) (s : ℤ) (msize : ℕ)
    (hdt : dt = DitherType.none) (h0 : 0 < s) :
    ImageProcessor.processCore img pal postOn lv pm useP dt s msize
      = ImageProcessor.ditherRun dt
          (if postOn then
            EffectsEngine.posterize img lv pm (if useP then some pal else Option.none)
          else img) pal msize postOn useP := by
  subst hdt
  unfold ImageProcessor.processCore
  simp [if_pos h0]

/-- C3 amended: in Steps 1–2 of `ImageProcessor.process`, (i) at strength 0
the whole dither stage (dithering and blending) is skipped and the stage
returns the working raster after optional posterization; (ii) for a dither
kind other than `'none'` and `0 < strength < 100`, the dithered raster is
blended per-pixel with weight `(100-strength)/100` toward the clean copy
saved *before* posterization (the raster as it was right after pixelation,
not the posterized one); (iii) for kind `'none'` no blend ever happens. -/
theorem C3_amended_strength_blend (img : Raster) (pal : List Pixel) (postOn : Bool)
    (lv : ℤ) (pm : PosterizeMode) (useP : Bool) (dt : DitherType) (s : ℤ) (msize : ℕ) :
    (s = 0 → ImageProcessor.processCore img pal postOn lv pm useP dt s msize
      = some (if postOn then
          EffectsEngine.posterize img lv pm (if useP then some pal else Option.none)
        else img))
    ∧ (dt ≠ DitherType.none → 0 < s → s < 100 →
      ImageProcessor.processCore img pal postOn lv pm useP dt s msize
        = (ImageProcessor.ditherRun dt
            (if postOn then
              EffectsEngine.posterize img lv pm (if useP then some pal else Option.none)
            else img) pal msize postOn useP).map
            (fun d => EffectsEngine.blendWithOriginal d img ((100 - (s : ℚ)) / 100)))
    ∧ (dt = DitherType.none → 0 < s →
      ImageProcessor.processCore img pal postOn lv pm useP dt s msize
        = ImageProcessor.ditherRun dt
            (if postOn then
              EffectsEngine.posterize img lv pm (if useP then some pal else Option.none)
            else img) pal msize postOn useP) :=
  ⟨processCore_skip_case img pal postOn lv pm useP dt s msize,
   processCore_blend_case img pal postOn lv pm useP dt s msize,
   processCore_none_case img pal postOn lv pm useP dt s msize⟩

theorem processCoreClaim_blend_case (img : Raster) (pal : List Pixel) (postOn : Bool)
    (lv : ℤ) (pm : PosterizeMode) (useP : Bool) (dt : DitherType) (s : ℤ) (msize : ℕ)
    (hdt : dt ≠ DitherType.none) (h0 : 0 < s) (h100 : s < 100) :
    ImageProcessor.processCoreClaim img pal postOn lv pm useP dt s msize
      = (ImageProcessor.ditherRun dt
          (if postOn then
            EffectsEngine.posterize img lv pm (if useP then some pal else Option.none)
          else img) pal msize postOn useP).map
          (fun d => EffectsEngine.blendWithOriginal d
            (if postOn then
              EffectsEngine.posterize img lv pm (if useP then some pal else Option.none)
            else img) ((100 - (s : ℚ)) / 100)) := by
  unfold ImageProcessor.processCoreClaim
  simp only [if_pos h0]
  simp [h100, hdt]

theorem pcPass_eval10 :
    EffectsEngine.posterizePCPass 255 ⟨1, 1, [(10, 10, 10)]⟩ = ⟨1, 1, [(0, 0, 0)]⟩ := by
  unfold EffectsEngine.posterizePCPass
  norm_num [ColorUtils.jsRound, EffectsEngine.u8, EffectsEngine.rhe, ColorUtils.clampQ]

theorem remapBW_eval0 :
    EffectsEngine.posterizeRemapPass [(0, 0, 0), (255, 255, 255)] ⟨1, 1, [(0, 0, 0)]⟩
      = ⟨1, 1, [(0, 0, 0)]⟩ := by
  have hsort : ColorUtils.sortPaletteByLuminance [(0, 0, 0), (255, 255, 255)]
      = [(0, 0, 0), (255, 255, 255)] := by decide
  have hlum0 : ColorUtils.getLuminance 0 0 0 = 0 := by decide
  have t0 : Int.toNat 0 = 0 := rfl
  unfold EffectsEngine.posterizeRemapPass
  simp only [hsort]
  norm_num [hlum0, ColorUtils.getPaletteIndexByLuminance, ColorUtils.jsRound, List.getD, t0]

theorem posterize_eval10pc :
    EffectsEngine.posterize ⟨1, 1, [(10, 10, 10)]⟩ 2 PosterizeMode.perChannel
      (some [(0, 0, 0), (255, 255, 255)]) = ⟨1, 1, [(0, 0, 0)]⟩ := by
  have hred : EffectsEngine.posterize ⟨1, 1, [(10, 10, 10)]⟩ 2 PosterizeMode.perChannel
      (some [(0, 0, 0), (255, 255, 255)])
      = EffectsEngine.posterizeRemapPass [(0, 0, 0), (255, 255, 255)]
          (EffectsEngine.posterizePCPass (255 / ((max 2 (min 16 (2 : ℤ)) : ℚ) - 1))
            ⟨1, 1, [(10, 10, 10)]⟩) := by
    simp [EffectsEngine.posterize]
  have hstep : (255 / ((max 2 (min 16 (2 : ℤ)) : ℚ) - 1)) = 255 := by
    norm_num [show (max 2 (min 16 (2 : ℤ))) = 2 from by decide]
  rw [hred, hstep, pcPass_eval10, remapBW_eval0]

theorem fsE_s1 : DitheringEngine.fsStep 1 1 (0, 0, 0) [(255, 255, 255)]
    (DitheringEngine.initState ⟨1, 1, [(0, 0, 0)]⟩) (0, 0)
    = lstate [(0, 0, 0)] [(0, 0, 0)] := by
  unfold DitheringEngine.fsStep DitheringEngine.initState lstate
  refine Prod.ext ?_ ?_
  · funext i
    simp only [DitheringEngine.fsDistribute, DitheringEngine.addAt,
      ColorUtils.findClosestNE, ColorUtils.fccLoop, ColorUtils.distTo,
      ColorUtils.colorDistanceSq, pixToQ]
    norm_num [Function.update, List.getD]
    try (rcases i with _ | i <;> norm_num)
  · funext i
    simp only [ColorUtils.findClosestNE, ColorUtils.fccLoop, ColorUtils.distTo,
      ColorUtils.colorDistanceSq, pixToQ]
    norm_num [Function.update, List.getD]
    try (rcases i with _ | i <;> norm_num)

theorem fs_eval1 :
    DitheringEngine.floydSteinberg ⟨1, 1, [(0, 0, 0)]⟩ [(0, 0, 0), (255, 255, 255)]
      = some ⟨1, 1, [(0, 0, 0)]⟩ := by
  have hseq : DitheringEngine.pixelSeq 1 1 = [(0, 0)] := rfl
  show some (DitheringEngine.materialize ⟨1, 1, [(0, 0, 0)]⟩
    ((DitheringEngine.pixelSeq (Raster.mk 1 1 [(0, 0, 0)]).width
        (Raster.mk 1 1 [(0, 0, 0)]).height).foldl
      (DitheringEngine.fsStep (Raster.mk 1 1 [(0, 0, 0)]).width
        (Raster.mk 1 1 [(0, 0, 0)]).height (0, 0, 0) [(255, 255, 255)])
      (DitheringEngine.initState ⟨1, 1, [(0, 0, 0)]⟩))) = _
  have hw : (Raster.mk 1 1 [(0, 0, 0)]).width = 1 := rfl
  have hh : (Raster.mk 1 1 [(0, 0, 0)]).height = 1 := rfl
  rw [hw, hh, hseq]
  simp only [List.foldl_cons, List.foldl_nil]
  rw [fsE_s1]
  rfl

theorem blend_eval5 :
    EffectsEngine.blendWithOriginal ⟨1, 1, [(0, 0, 0)]⟩ ⟨1, 1, [(10, 10, 10)]⟩
      ((100 - ((50 : ℤ) : ℚ)) / 100) = ⟨1, 1, [(5, 5, 5)]⟩ := by
  unfold EffectsEngine.blendWithOriginal
  norm_num [mapWithIndex, EffectsEngine.u8, EffectsEngine.rhe, ColorUtils.clampQ, List.getD]

theorem blend_eval0 :
    EffectsEngine.blendWithOriginal ⟨1, 1, [(0, 0, 0)]⟩ ⟨1, 1, [(0, 0, 0)]⟩
      ((100 - ((50 : ℤ) : ℚ)) / 100) = ⟨1, 1, [(0, 0, 0)]⟩ := by
  unfold EffectsEngine.blendWithOriginal
  norm_num [mapWithIndex, EffectsEngine.u8, EffectsEngine.rhe, ColorUtils.clampQ, List.getD]

theorem processCore_eval :
    ImageProcessor.processCore ⟨1, 1, [(10, 10, 10)]⟩ [(0, 0, 0), (255, 255, 255)] true 2
      PosterizeMode.perChannel true DitherType.floydSteinberg 50 4
      = some ⟨1, 1, [(5, 5, 5)]⟩ := by
  rw [processCore_blend_case _ _ _ _ _ _ _ _ _ (by decide) (by decide) (by decide)]
  rw [if_pos rfl, if_pos rfl, posterize_eval10pc]
  unfold ImageProcessor.ditherRun
  rw [fs_eval1]
  simp only [Option.map_some']
  rw [blend_eval5]

theorem processCoreClaim_eval :
    ImageProcessor.processCoreClaim ⟨1, 1, [(10, 10, 10)]⟩ [(0, 0, 0), (255, 255, 255)] true 2
      PosterizeMode.perChannel true DitherType.floydSteinberg 50 4
      = some ⟨1, 1, [(0, 0, 0)]⟩ := by
  rw [processCoreClaim_blend_case _ _ _ _ _ _ _ _ _ (by decide) (by decide) (by decide)]
  rw [if_pos rfl, if_pos rfl, posterize_eval10pc]
  unfold ImageProcessor.ditherRun
  rw [fs_eval1]
  simp only [Option.map_some']
  rw [blend_eval0]

/-- C3 counterexample: with posterization enabled (per-channel, 2 levels,
palette used), Floyd–Steinberg dithering and strength 50 on a 1×1 raster of
(10,10,10) with the black/white palette, the code blends against the
pre-posterize copy and yields (5,5,5), while blending against the posterized
working raster — the claim's "pre-dither clean raster including
posterization" — would yield (0,0,0). -/
theorem C3_counterexample :
    ImageProcessor.processCore ⟨1, 1, [(10, 10, 10)]⟩ [(0, 0, 0), (255, 255, 255)] true 2
      PosterizeMode.perChannel true DitherType.floydSteinberg 50 4
    ≠ ImageProcessor.processCoreClaim ⟨1, 1, [(10, 10, 10)]⟩ [(0, 0, 0), (255, 255, 255)] true 2
      PosterizeMode.perChannel true DitherType.floydSteinberg 50 4 := by
  rw [processCore_eval, processCoreClaim_eval]
  simp

/-- Witness for C3's amended statement: the blend case at concrete inputs. -/
theorem C3_amended_witness :
    ImageProcessor.processCore ⟨1, 1, [(10, 10, 10)]⟩ [(0, 0, 0), (255, 255, 255)] true 2
      PosterizeMode.perChannel true DitherType.floydSteinberg 50 4
      = (ImageProcessor.ditherRun DitherType.floydSteinberg
          (if true then
            EffectsEngine.posterize ⟨1, 1, [(10, 10, 10)]⟩ 2 PosterizeMode.perChannel
              (if true then some [(0, 0, 0), (255, 255, 255)] else Option.none)
          else ⟨1, 1, [(10, 10, 10)]⟩) [(0, 0, 0), (255, 255, 255)] 4 true true).map
          (fun d => EffectsEngine.blendWithOriginal d ⟨1, 1, [(10, 10, 10)]⟩
            ((100 - ((50 : ℤ) : ℚ)) / 100)) :=
  (C3_amended_strength_blend ⟨1, 1, [(10, 10, 10)]⟩ [(0, 0, 0), (255, 255, 255)] true 2
    PosterizeMode.perChannel true DitherType.floydSteinberg 50 4).2.1
    (by decide) (by decide) (by decide)

/-! ### Noise (C9) -/

theorem u8_int (z : ℤ) (h0 : 0 ≤ z) (h255 : z ≤ 255) :
    EffectsEngine.u8 (z : ℚ) = z := by
  unfold EffectsEngine.u8 ColorUtils.clampQ EffectsEngine.rhe
  have hn0 : ¬ ((z : ℚ) < 0) := by
    rw [not_lt]
    exact_mod_cast h0
  have hn255 : ¬ ((255 : ℚ) < (z : ℚ)) := by
    rw [not_lt]
    exact_mod_cast h255
  rw [if_neg hn0, if_neg hn255]
  simp [Int.floor_intCast]

theorem mapWithIndex_getD (f : ℕ → Pixel → Pixel) :
    ∀ (l : List Pixel) (s i : ℕ), i < l.length →
      (mapWithIndex f s l).getD i (0, 0, 0) = f (s + i) (l.getD i (0, 0, 0)) := by
  intro l
  induction l with
  | nil => intro s i h; simp at h
  | cons p ps ih =>
    intro s i h
    cases i with
    | zero => simp [mapWithIndex, List.getD]
    | succ j =>
      have hj : j < ps.length := by simpa using h
      have := ih (s + 1) j hj
      simpa [mapWithIndex, List.getD, Nat.add_assoc, Nat.add_comm 1 j] using this

theorem mapWithIndex_fixed (f : ℕ → Pixel → Pixel) :
    ∀ (l : List Pixel) (s : ℕ), (∀ i p, p ∈ l → f i p = p) → mapWithIndex f s l = l := by
  intro l
  induction l with
  | nil => intro s _; rfl
  | cons p ps ih =>
    intro s h
    unfold mapWithIndex
    rw [h s p (List.mem_cons_self p ps), ih (s + 1) fun i q hq => h i q (List.mem_cons_of_mem p hq)]

/-- C9: `addNoise` preserves the dimensions; every pixel `i` receives a single
value `n = (rand i - 0.5) * amount * 2`, lying in `[-amount, amount)` (the
right end strict whenever the interval is non-degenerate), added identically
to all three channels through the clamped byte store; and at `amount = 0` the
operation is the identity on any well-formed (byte-valued) raster. -/
theorem C9_noise (img : Raster) (amount : ℚ) (rand : ℕ → ℚ)
    (hr : ∀ i, 0 ≤ rand i ∧ rand i < 1) (ha : 0 ≤ amount) :
    ((EffectsEngine.addNoise img amount rand).width = img.width
      ∧ (EffectsEngine.addNoise img amount rand).height = img.height)
    ∧ (∀ i, i < img.data.length →
        ∃ n : ℚ, -amount ≤ n ∧ (0 < amount → n < amount)
          ∧ (EffectsEngine.addNoise img amount rand).data.getD i (0, 0, 0)
              = (EffectsEngine.u8 (((img.data.getD i (0, 0, 0)).1 : ℚ) + n),
                 EffectsEngine.u8 (((img.data.getD i (0, 0, 0)).2.1 : ℚ) + n),
                 EffectsEngine.u8 (((img.data.getD i (0, 0, 0)).2.2 : ℚ) + n)))
    ∧ (amount = 0 →
        (∀ p ∈ img.data, 0 ≤ p.1 ∧ p.1 ≤ 255 ∧ 0 ≤ p.2.1 ∧ p.2.1 ≤ 255
          ∧ 0 ≤ p.2.2 ∧ p.2.2 ≤ 255) →
        EffectsEngine.addNoise img amount rand = img) := by
  refine ⟨⟨rfl, rfl⟩, ?_, ?_⟩
  · intro i hi
    refine ⟨(rand i - 0.5) * amount * 2, ?_, ?_, ?_⟩
    · have h1 := (hr i).1
      nlinarith
    · intro hpos
      have h2 := (hr i).2
      nlinarith
    · unfold EffectsEngine.addNoise
      have := mapWithIndex_getD (fun i p =>
        (EffectsEngine.u8 ((p.1 : ℚ) + (rand i - 0.5) * amount * 2),
         EffectsEngine.u8 ((p.2.1 : ℚ) + (rand i - 0.5) * amount * 2),
         EffectsEngine.u8 ((p.2.2 : ℚ) + (rand i - 0.5) * amount * 2))) img.data 0 i hi
      simpa using this
  · intro h0 hbytes
    subst h0
    unfold EffectsEngine.addNoise
    have hdata : mapWithIndex (fun i p =>
        ((EffectsEngine.u8 ((p.1 : ℚ) + (rand i - 0.5) * 0 * 2)),
         (EffectsEngine.u8 ((p.2.1 : ℚ) + (rand i - 0.5) * 0 * 2)),
         (EffectsEngine.u8 ((p.2.2 : ℚ) + (rand i - 0.5) * 0 * 2)))) 0 img.data = img.data := by
      apply mapWithIndex_fixed
      intro i p hp
      obtain ⟨b1, b2, b3, b4, b5, b6⟩ := hbytes p hp
      have e : ∀ c : ℤ, (c : ℚ) + (rand i - 0.5) * 0 * 2 = (c : ℚ) := by
        intro c; ring
      rw [e, e, e, u8_int _ b1 b2, u8_int _ b3 b4, u8_int _ b5 b6]
    rw [hdata]

/-- Witness for C9 at a concrete raster, `amount = 0` and the constant
half stream: the noise stage is the identity. -/
theorem C9_noise_witness :
    EffectsEngine.addNoise ⟨1, 1, [(7, 8, 9)]⟩ 0 (fun _ => 1/2) = ⟨1, 1, [(7, 8, 9)]⟩ :=
  (C9_noise ⟨1, 1, [(7, 8, 9)]⟩ 0 (fun _ => 1/2)
    (fun _ => by norm_num) (by norm_num)).2.2 rfl (by decide)

/-! ### Blend modes (C8, C10) -/

theorem bpn_normal (base blend : ℕ) :
    EffectsEngine.blendPixelNorm base blend BMode.normal = (blend : ℝ) / 255 := rfl

theorem bpn_unknown (base blend : ℕ) :
    EffectsEngine.blendPixelNorm base blend BMode.unknown = (blend : ℝ) / 255 := rfl

theorem bpn_multiply (base blend : ℕ) :
    EffectsEngine.blendPixelNorm base blend BMode.multiply
      = ((base : ℝ) / 255) * ((blend : ℝ) / 255) := rfl

theorem bpn_screen (base blend : ℕ) :
    EffectsEngine.blendPixelNorm base blend BMode.screen
      = 1 - (1 - (base : ℝ) / 255) * (1 - (blend : ℝ) / 255) := rfl

theorem bpn_overlay (base blend : ℕ) :
    EffectsEngine.blendPixelNorm base blend BMode.overlay
      = if (base : ℝ) / 255 < 1 / 2 then 2 * ((base : ℝ) / 255) * ((blend : ℝ) / 255)
        else 1 - 2 * (1 - (base : ℝ) / 255) * (1 - (blend : ℝ) / 255) := rfl

theorem bpn_softLight (base blend : ℕ) :
    EffectsEngine.blendPixelNorm base blend BMode.softLight
      = if (blend : ℝ) / 255 < 1 / 2 then
          (base : ℝ) / 255 - (1 - 2 * ((blend : ℝ) / 255)) * ((base : ℝ) / 255)
            * (1 - (base : ℝ) / 255)
        else (base : ℝ) / 255 + (2 * ((blend : ℝ) / 255) - 1)
            * (Real.sqrt ((base : ℝ) / 255) - (base : ℝ) / 255) := rfl

theorem bpn_hardLight (base blend : ℕ) :
    EffectsEngine.blendPixelNorm base blend BMode.hardLight
      = if (blend : ℝ) / 255 < 1 / 2 then 2 * ((base : ℝ) / 255) * ((blend : ℝ) / 255)
        else 1 - 2 * (1 - (base : ℝ) / 255) * (1 - (blend : ℝ) / 255) := rfl

theorem bpn_colorDodge (base blend : ℕ) :
    EffectsEngine.blendPixelNorm base blend BMode.colorDodge
      = if (blend : ℝ) / 255 = 1 then 1
        else min 1 (((base : ℝ) / 255) / (1 - (blend : ℝ) / 255)) := rfl

theorem bpn_colorBurn (base blend : ℕ) :
    EffectsEngine.blendPixelNorm base blend BMode.colorBurn
      = if (blend : ℝ) / 255 = 0 then 0
        else max 0 (1 - (1 - (base : ℝ) / 255) / ((blend : ℝ) / 255)) := rfl

theorem bpn_difference (base blend : ℕ) :
    EffectsEngine.blendPixelNorm base blend BMode.difference
      = |(base : ℝ) / 255 - (blend : ℝ) / 255| := rfl

theorem bpn_exclusion (base blend : ℕ) :
    EffectsEngine.blendPixelNorm base blend BMode.exclusion
      = (base : ℝ) / 255 + (blend : ℝ) / 255
        - 2 * ((base : ℝ) / 255) * ((blend : ℝ) / 255) := rfl

theorem bpn_lighten (base blend : ℕ) :
    EffectsEngine.blendPixelNorm base blend BMode.lighten
      = max ((base : ℝ) / 255) ((blend : ℝ) / 255) := rfl

theorem bpn_darken (base blend : ℕ) :
    EffectsEngine.blendPixelNorm base blend BMode.darken
      = min ((base : ℝ) / 255) ((blend : ℝ) / 255) := rfl

/-- C8: edge and boundary values of the per-pixel blend function:
`color-dodge` returns the full byte 255 whenever the overlay is 255
(normalized 1.0, no division by zero), `color-burn` returns 0 whenever the
overlay is 0, `normal` returns the overlay byte unchanged, and the fixed
boundary outputs hold: `multiply(0,255) = 0`, `screen(255,0) = 255`,
`difference(10,200) = 190`. -/
theorem C8_blend_edge_values :
    (∀ base : ℕ, EffectsEngine.blendPixel base 255 BMode.colorDodge = 255)
    ∧ (∀ base : ℕ, EffectsEngine.blendPixel base 0 BMode.colorBurn = 0)
    ∧ (∀ base blend : ℕ, EffectsEngine.blendPixel base blend BMode.normal = blend)
    ∧ EffectsEngine.blendPixel 0 255 BMode.multiply = 0
    ∧ EffectsEngine.blendPixel 255 0 BMode.screen = 255
    ∧ EffectsEngine.blendPixel 10 200 BMode.difference = 190 := by
  refine ⟨?_, ?_, ?_, ?_, ?_, ?_⟩
  · intro base
    unfold EffectsEngine.blendPixel EffectsEngine.jsRoundR
    rw [bpn_colorDodge, if_pos (by norm_num : ((255 : ℕ) : ℝ) / 255 = 1)]
    norm_num
  · intro base
    unfold EffectsEngine.blendPixel EffectsEngine.jsRoundR
    rw [bpn_colorBurn, if_pos (by norm_num : ((0 : ℕ) : ℝ) / 255 = 0)]
    norm_num
  · intro base blend
    unfold EffectsEngine.blendPixel EffectsEngine.jsRoundR
    rw [bpn_normal, div_mul_cancel₀ _ (by norm_num : (255 : ℝ) ≠ 0)]
    rw [Int.floor_eq_iff]
    constructor
    · push_cast
      linarith
    · push_cast
      linarith
  · unfold EffectsEngine.blendPixel EffectsEngine.jsRoundR
    rw [bpn_multiply]
    norm_num
  · unfold EffectsEngine.blendPixel EffectsEngine.jsRoundR
    rw [bpn_screen]
    norm_num
  · unfold EffectsEngine.blendPixel EffectsEngine.jsRoundR
    rw [bpn_difference]
    norm_num
    rw [abs_of_nonneg (by norm_num : (0 : ℝ) ≤ 38 / 51)]
    norm_num

theorem jsRoundR_byte_range (x : ℝ) (h0 : 0 ≤ x) (h1 : x ≤ 1) :
    0 ≤ EffectsEngine.jsRoundR (x * 255) ∧ EffectsEngine.jsRoundR (x * 255) ≤ 255 := by
  unfold EffectsEngine.jsRoundR
  constructor
  · rw [Int.le_floor]
    push_cast
    nlinarith
  · have hlt : ⌊x * 255 + 1 / 2⌋ < 256 := by
      rw [Int.floor_lt]
      push_cast
      nlinarith
    omega

/-- C10 (implicit): for every supported blend mode (including the `normal`
fallback for unrecognized names) and all byte inputs, `blendPixel` returns a
byte in `[0, 255]`: every branch keeps the normalized result within `[0, 1]`
— `color-dodge` through its `min` with 1, `color-burn` through its `max`
with 0, `soft-light` because `b ≤ √b ≤ 1` on `[0, 1]` — and the final
rescaling-with-rounding maps `[0, 1]` into bytes. -/
theorem C10_blendPixel_byte_range (mode : BMode) (base blend : ℕ)
    (hb : base ≤ 255) (hl : blend ≤ 255) :
    0 ≤ EffectsEngine.blendPixel base blend mode
      ∧ EffectsEngine.blendPixel base blend mode ≤ 255 := by
  have hb0 : (0 : ℝ) ≤ (base : ℝ) / 255 := by positivity
  have hl0 : (0 : ℝ) ≤ (blend : ℝ) / 255 := by positivity
  have hb1 : (base : ℝ) / 255 ≤ 1 := by
    rw [div_le_one (by norm_num : (0 : ℝ) < 255)]
    exact_mod_cast hb
  have hl1 : (blend : ℝ) / 255 ≤ 1 := by
    rw [div_le_one (by norm_num : (0 : ℝ) < 255)]
    exact_mod_cast hl
  suffices hn : 0 ≤ EffectsEngine.blendPixelNorm base blend mode
      ∧ EffectsEngine.blendPixelNorm base blend mode ≤ 1 by
    exact jsRoundR_byte_range _ hn.1 hn.2
  cases mode with
  | normal => rw [bpn_normal]; exact ⟨hl0, hl1⟩
  | unknown => rw [bpn_unknown]; exact ⟨hl0, hl1⟩
  | multiply =>
    rw [bpn_multiply]
    exact ⟨mul_nonneg hb0 hl0, by nlinarith⟩
  | screen =>
    rw [bpn_screen]
    constructor
    · nlinarith [mul_nonneg (sub_nonneg.mpr hb1) (sub_nonneg.mpr hl1)]
    · nlinarith [mul_nonneg (sub_nonneg.mpr hb1) (sub_nonneg.mpr hl1),
        mul_nonneg hb0 hl0]
  | overlay =>
    rw [bpn_overlay]
    by_cases h : (base : ℝ) / 255 < 1 / 2
    · rw [if_pos h]
      constructor
      · positivity
      · nlinarith [mul_nonneg hb0 (sub_nonneg.mpr hl1)]
    · rw [if_neg h]
      constructor
      · nlinarith [mul_nonneg (sub_nonneg.mpr hb1) (sub_nonneg.mpr hl1)]
      · nlinarith [mul_nonneg (sub_nonneg.mpr hb1) (sub_nonneg.mpr hl1)]
  | hardLight =>
    rw [bpn_hardLight]
    by_cases h : (blend : ℝ) / 255 < 1 / 2
    · rw [if_pos h]
      constructor
      · positivity
      · nlinarith [mul_nonneg hl0 (sub_nonneg.mpr hb1)]
    · rw [if_neg h]
      constructor
      · nlinarith [mul_nonneg (sub_nonneg.mpr hb1) (sub_nonneg.mpr hl1)]
      · nlinarith [mul_nonneg (sub_nonneg.mpr hb1) (sub_nonneg.mpr hl1)]
  | softLight =>
    rw [bpn_softLight]
    by_cases h : (blend : ℝ) / 255 < 1 / 2
    · rw [if_pos h]
      have hq : (1 - 2 * ((blend : ℝ) / 255)) * (1 - (base : ℝ) / 255) ≤ 1 := by nlinarith
      constructor
      · nlinarith [mul_nonneg hb0 (sub_nonneg.mpr hq)]
      · nlinarith [mul_nonneg (mul_nonneg
          (by linarith : (0 : ℝ) ≤ 1 - 2 * ((blend : ℝ) / 255)) hb0)
          (sub_nonneg.mpr hb1)]
    · rw [if_neg h]
      have hs0 : 0 ≤ Real.sqrt ((base : ℝ) / 255) := Real.sqrt_nonneg _
      have hs1 : Real.sqrt ((base : ℝ) / 255) ≤ 1 := Real.sqrt_le_one.mpr hb1
      have hss : Real.sqrt ((base : ℝ) / 255) * Real.sqrt ((base : ℝ) / 255)
          = (base : ℝ) / 255 := Real.mul_self_sqrt hb0
      have hbs : (base : ℝ) / 255 ≤ Real.sqrt ((base : ℝ) / 255) := by
        nlinarith [mul_nonneg hs0 (sub_nonneg.mpr hs1)]
      constructor
      · nlinarith [mul_nonneg (by linarith : (0 : ℝ) ≤ 2 * ((blend : ℝ) / 255) - 1)
          (sub_nonneg.mpr hbs)]
      · nlinarith [mul_nonneg (by linarith : (0 : ℝ) ≤ 1 - (2 * ((blend : ℝ) / 255) - 1))
          (sub_nonneg.mpr hbs)]
  | colorDodge =>
    rw [bpn_colorDodge]
    by_cases h : (blend : ℝ) / 255 = 1
    · rw [if_pos h]
      norm_num
    · rw [if_neg h]
      have hlt : (blend : ℝ) / 255 < 1 := lt_of_le_of_ne hl1 h
      constructor
      · exact le_min (by norm_num) (div_nonneg hb0 (by linarith))
      · exact min_le_left _ _
  | colorBurn =>
    rw [bpn_colorBurn]
    by_cases h : (blend : ℝ) / 255 = 0
    · rw [if_pos h]
      norm_num
    · rw [if_neg h]
      constructor
      · exact le_max_left _ _
      · refine max_le (by norm_num) ?_
        have hdiv : 0 ≤ (1 - (base : ℝ) / 255) / ((blend : ℝ) / 255) :=
          div_nonneg (sub_nonneg.mpr hb1) hl0
        linarith
  | difference =>
    rw [bpn_difference]
    exact ⟨abs_nonneg _, abs_le.mpr ⟨by linarith, by linarith⟩⟩
  | exclusion =>
    rw [bpn_exclusion]
    constructor
    · nlinarith [mul_nonneg hb0 (sub_nonneg.mpr hl1), mul_nonneg hl0 (sub_nonneg.mpr hb1)]
    · nlinarith [mul_nonneg (sub_nonneg.mpr hb1) (sub_nonneg.mpr hl1),
        mul_nonneg hb0 hl0]
  | lighten =>
    rw [bpn_lighten]
    exact ⟨le_max_of_le_left hb0, max_le hb1 hl1⟩
  | darken =>
    rw [bpn_darken]
    exact ⟨le_min hb0 hl0, min_le_of_left_le hb1⟩

/-- Witness for C10 at concrete bytes and the `multiply` mode. -/
theorem C10_blendPixel_byte_range_witness :
    0 ≤ EffectsEngine.blendPixel 0 0 BMode.multiply
      ∧ EffectsEngine.blendPixel 0 0 BMode.multiply ≤ 255 :=
  C10_blendPixel_byte_range BMode.multiply 0 0 (by decide) (by decide)

/-- Witness for C1 at a concrete 1×1 raster and one-entry palette. -/
theorem C1_palette_membership_witness :
    (∃ out, DitheringEngine.quantize ⟨1, 1, [(3, 4, 5)]⟩ [(7, 8, 9)] = some out
      ∧ out.width = 1 ∧ out.height = 1 ∧ ∀ q ∈ out.data, q ∈ [((7 : ℤ), (8 : ℤ), (9 : ℤ))])
    ∧ (∃ out, DitheringEngine.floydSteinberg ⟨1, 1, [(3, 4, 5)]⟩ [(7, 8, 9)] = some out
      ∧ out.width = 1 ∧ out.height = 1 ∧ ∀ q ∈ out.data, q ∈ [((7 : ℤ), (8 : ℤ), (9 : ℤ))])
    ∧ (∃ out, DitheringEngine.atkinson ⟨1, 1, [(3, 4, 5)]⟩ [(7, 8, 9)] = some out
      ∧ out.width = 1 ∧ out.height = 1 ∧ ∀ q ∈ out.data, q ∈ [((7 : ℤ), (8 : ℤ), (9 : ℤ))])
    ∧ (∃ out, DitheringEngine.orderedDither ⟨1, 1, [(3, 4, 5)]⟩ [(7, 8, 9)] 4 = some out
      ∧ out.width = 1 ∧ out.height = 1 ∧ ∀ q ∈ out.data, q ∈ [((7 : ℤ), (8 : ℤ), (9 : ℤ))]) :=
  C1_palette_membership ⟨1, 1, [(3, 4, 5)]⟩ [(7, 8, 9)] 4 (by decide) (by decide)
    (by decide) (by decide) (by decide)
